import Mathlib

/-!
# KanaKira — verification of the glyph-synthesis core

Shallow embedding of `src/main.py` (KanaKira font builder).  The builder
combines a scaled Katakana base run with a centred Romaji label into a new
composite glyph, generates OpenType `liga` substitution rules for
multi-character sequences, prunes the character map, and fixes the
vertical ascent.

Modelling conventions:
* Machine values are `Nat`/`Int`.  Python `//` (floor division on ints) is
  `Int.fdiv`.
* The floating-point products `int(aw * KANA_SCALE)`, `int(aw * ROMAJI_SCALE)`
  and `int(REF_HEIGHT * KANA_SCALE)` are abstracted as the functions
  `Config.scaleKana`, `Config.scaleRomaji` and the value
  `Config.refHeightScaled` — the code only ever reuses these values, never
  their algebraic structure.
* Python's builtin `hash` on strings (process-seed randomised) is an explicit
  environment parameter `pyHash : String → Int`.
* fontTools primitives (pens, outline serialisation, `recalcBounds`,
  `addOpenTypeFeatures`) are external per the spec; drawing is modelled as the
  exact list of `draw_scaled` invocations (source glyph, destination font
  and affine translation), `recalcBounds` results as an environment function
  `yMaxOut`, and the `addOpenTypeFeatures` call outcome as a Boolean.
* A raised Python exception is modelled as `Option.none`.
-/

set_option maxRecDepth 4000

namespace KanaKira

/-- Uppercase hexadecimal digit, as produced by Python's `"X"` format spec. -/
def hexDigitU (n : Nat) : Char :=
  if n < 10 then Char.ofNat (48 + n) else Char.ofNat (55 + n)

/-- Hexadecimal rendering of a natural number, uppercase, no leading zeros
(`"0"` for zero) — the digits of Python's `format(n, "X")`. -/
def natToHexU (n : Nat) : String :=
  String.mk ((Nat.toDigits 16 n).map Char.toUpper)

/-- Left-pad with `'0'` to width `w` (Python's `0`-fill). -/
def zeroPad (w : Nat) (s : String) : String :=
  String.mk (List.replicate (w - s.length) '0') ++ s

/-- Python `f"{n:04X}"` for a nonnegative integer. -/
def fmt04XNat (n : Nat) : String := zeroPad 4 (natToHexU n)

/-- Python `f"{i:04X}"` for a possibly negative integer: the sign counts
towards the zero-filled width of 4. -/
def fmt04XInt (i : Int) : String :=
  if i < 0 then "-" ++ zeroPad 3 (natToHexU i.natAbs) else zeroPad 4 (natToHexU i.toNat)

/-- Python `ord` of the first character of a string (`ord(kana)` / `ord(kana[0])`).
The catalog never contains an empty key. -/
def ordFirst (s : String) : Nat :=
  match s.data with
  | [] => 0
  | c :: _ => c.toNat

/-- First-match lookup in an association list (Python `dict[k]` /
`k in dict` once keys are unique). -/
def lookupA {κ α : Type} [DecidableEq κ] : List (κ × α) → κ → Option α
  | [], _ => none
  | p :: rest, k => if k = p.1 then some p.2 else lookupA rest k

/-- Python `dict` insertion: overwrite in place if the key exists
(keeping its position), else append. -/
def dictInsert {κ α : Type} [DecidableEq κ] (d : List (κ × α)) (k : κ) (v : α) :
    List (κ × α) :=
  if d.any (fun p => p.1 = k) then
    d.map (fun p => if p.1 = k then (k, v) else p)
  else d ++ [(k, v)]

/-- Which source font a `draw_scaled` call reads from (and hence which scale
factor it applies: `KANA_SCALE` for `jp`, `ROMAJI_SCALE` for `romaji`). -/
inductive FontSel where
  | jp
  | romaji
deriving DecidableEq

/-- One `draw_scaled(pen, src_font, gname, scale, dx, dy)` invocation:
the affine image of source glyph `gname` translated by `(dx, dy)`. -/
structure DrawCmd where
  font : FontSel
  gname : String
  dx : Int
  dy : Int
deriving DecidableEq

/-- The output of `make_combined_glyph`: the destination glyph name, the
ordered contour composition (the `draw_scaled` calls received by the pen)
and the `hmtx` record `(advanceWidth, lsb)` stored at line 245. -/
structure GlyphResult where
  name : String
  cmds : List DrawCmd
  advanceWidth : Nat
  lsb : Int
deriving DecidableEq

/-- A source font as consumed by the builder: its best cmap (as the
association list underlying the dict), `hmtx` records, and the `glyf`
data used by `glyph_metrics`. -/
structure SrcFont where
  cmapList : List (Nat × String)
  hmtx : String → Nat × Int
  yMaxF : String → Int
  hasContours : String → Bool

/-- Lookup `font.getBestCmap()[cp]` (`none` = `KeyError`). -/
def SrcFont.cmapLookup (f : SrcFont) (cp : Nat) : Option String :=
  lookupA f.cmapList cp

/-- The helper `glyph_metrics`: `(advanceWidth, yMax if numberOfContours else 0)`. -/
def glyph_metrics (f : SrcFont) (gname : String) : Nat × Int :=
  ((f.hmtx gname).1, if f.hasContours gname then f.yMaxF gname else 0)

/-- The global configuration constants read from `config.json`. -/
structure Config where
  /-- `int(aw * KANA_SCALE)` for a raw advance width `aw`. -/
  scaleKana : Nat → Nat
  /-- `int(aw * ROMAJI_SCALE)`. -/
  scaleRomaji : Nat → Nat
  /-- `GAP`. -/
  gap : Int
  /-- `int(REF_HEIGHT * KANA_SCALE)`. -/
  refHeightScaled : Int
  /-- `VERT_OFFSET`. -/
  vertOffset : Int
  /-- `HORIZ_OFFSET`. -/
  horizOffset : Int

/-- The destination glyph name chosen at lines 184–192: single characters
get `kana_{ord:04X}`, multi-character combinations get
`youon_{hash:04X}` plus the category suffix. -/
def dstName (pyHash : String → Int) (kana glyph_suffix : String) : String :=
  if kana.length = 1 then
    "kana_" ++ fmt04XNat (ordFirst kana) ++ glyph_suffix
  else
    "youon_" ++ fmt04XInt (pyHash kana) ++ glyph_suffix

/-- Lines 226–229: total scaled advance of the Romaji label; characters
absent from the label font's cmap are skipped. -/
def labelWidth (cfg : Config) (romaji : SrcFont) (text : String) : Nat :=
  (text.data.filterMap (fun ch =>
    (romaji.cmapLookup ch.toNat).map
      (fun rname => cfg.scaleRomaji (glyph_metrics romaji rname).1))).sum

/-- Lines 235–241: draw each mappable label character at the advancing
cursor; unmapped characters neither draw nor advance. -/
def labelCmds (cfg : Config) (romaji : SrcFont) (text : String)
    (xStart yStart : Int) : List DrawCmd :=
  (text.data.foldl (fun (acc : List DrawCmd × Int) ch =>
    match romaji.cmapLookup ch.toNat with
    | some rname =>
        (acc.1 ++ [⟨FontSel.romaji, rname, acc.2, yStart⟩],
         acc.2 + (cfg.scaleRomaji (glyph_metrics romaji rname).1 : Int))
    | none => acc) ([], xStart)).1

/-- Lines 207–214: the width pass over a multi-character base run — each
character *present in the base cmap* contributes its source glyph and
scaled advance width; absent characters are skipped. -/
def kanaWidths (cfg : Config) (jp : SrcFont) (kana : String) :
    List (String × Nat) :=
  kana.data.filterMap (fun c =>
    (jp.cmapLookup c.toNat).map
      (fun src => (src, cfg.scaleKana (glyph_metrics jp src).1)))

/-- Lines 216–220: draw each base-run member at the accumulating x offset. -/
def baseCmdsMulti (cfg : Config) (kws : List (String × Nat)) : List DrawCmd :=
  (kws.foldl (fun (acc : List DrawCmd × Int) p =>
    (acc.1 ++ [⟨FontSel.jp, p.1, acc.2, cfg.vertOffset⟩], acc.2 + (p.2 : Int)))
    ([], cfg.horizOffset)).1

/-- Lines 224–246 (shared by both branches): measure the Romaji block,
centre it (clamped at the base-run start), draw it above the base run
and store the glyph with metrics `(aw_k_scaled, 0)`. -/
def finishGlyph (cfg : Config) (romaji : SrcFont) (dst_name : String)
    (baseCmds : List DrawCmd) (aw_k_scaled : Nat) (romaji_text : String) :
    GlyphResult :=
  let romaji_width := labelWidth cfg romaji romaji_text
  let x_start : Int :=
    max (Int.fdiv ((aw_k_scaled : Int) - (romaji_width : Int)) 2) 0 + cfg.horizOffset
  let y_start : Int := cfg.refHeightScaled + cfg.gap + cfg.vertOffset
  ⟨dst_name, baseCmds ++ labelCmds cfg romaji romaji_text x_start y_start,
   aw_k_scaled, 0⟩

/-- Function `make_combined_glyph` (lines 176–246).  `none` models the `KeyError`
raised when a required base-cmap lookup fails: the single character for a
1-character entry, the *first* character for a multi-character entry.
Other base characters of a multi-character run, and all label characters,
are looked up tolerantly. -/
def make_combined_glyph (cfg : Config) (pyHash : String → Int)
    (jp romaji : SrcFont) (kana romaji_text : String)
    (glyph_suffix : String) : Option GlyphResult :=
  if kana.length = 1 then
    match jp.cmapLookup (ordFirst kana) with
    | none => none
    | some kana_src =>
        let baseCmds : List DrawCmd :=
          [⟨FontSel.jp, kana_src, cfg.horizOffset, cfg.vertOffset⟩]
        let aw_k_scaled := cfg.scaleKana (glyph_metrics jp kana_src).1
        some (finishGlyph cfg romaji (dstName pyHash kana glyph_suffix)
          baseCmds aw_k_scaled romaji_text)
  else
    match jp.cmapLookup (ordFirst kana) with
    | none => none
    | some _ =>
        let kws := kanaWidths cfg jp kana
        let total_width := (kws.map (fun p => p.2)).sum
        some (finishGlyph cfg romaji (dstName pyHash kana glyph_suffix)
          (baseCmdsMulti cfg kws) total_width romaji_text)

/-- One emitted substitution rule `sub g1 … gn by glyph_name;`. -/
structure LigaRule where
  inputs : List String
  output : String
deriving DecidableEq

/-- Codepoint of character `i` of a combination key (`ord(combo[i])`);
catalog keys always have the length their group requires. -/
def cpAt (s : String) (i : Nat) : Nat :=
  (s.data.getD i (Char.ofNat 0)).toNat

/-- Loop body for a 3-character combination (lines 261–269): emit the rule
only when all three codepoints are in `cmap_map`. -/
def ruleFor3 (cmap_map : Nat → Option String) (p : String × String) :
    Option LigaRule :=
  match cmap_map (cpAt p.1 0), cmap_map (cpAt p.1 1), cmap_map (cpAt p.1 2) with
  | some g1, some g2, some g3 => some ⟨[g1, g2, g3], p.2⟩
  | _, _, _ => none

/-- Loop body for a 2-character combination (lines 272–289). -/
def ruleFor2 (cmap_map : Nat → Option String) (p : String × String) :
    Option LigaRule :=
  match cmap_map (cpAt p.1 0), cmap_map (cpAt p.1 1) with
  | some g1, some g2 => some ⟨[g1, g2], p.2⟩
  | _, _ => none

/-- Function `generate_liga_features` (lines 252–293), restricted to the emitted
`sub` rules in order; the surrounding `feature liga { … } liga;` wrapper
and string formatting carry no further content.  Complex (3-character)
rules come first, then youon, then sokuon (2-character) rules. -/
def generate_liga_rules (cmap_map : Nat → Option String)
    (youon_glyphs sokuon_glyphs complex_glyphs : List (String × String)) :
    List LigaRule :=
  complex_glyphs.filterMap (ruleFor3 cmap_map)
    ++ youon_glyphs.filterMap (ruleFor2 cmap_map)
    ++ sokuon_glyphs.filterMap (ruleFor2 cmap_map)

/-- The ascender fix (lines 405–413): `top` is the maximum `yMax` over
glyphs that have contours (`tops` lists those values; Python's `max` on an
empty generator raises, hence `none`); if `top + 20` exceeds the inherited
ascent, all three ascent metrics are raised by the shortfall. -/
def fixAscent (ascent sTypoAscender usWinAscent : Int) (tops : List Int) :
    Option (Int × Int × Int) :=
  match tops.max? with
  | none => none
  | some top =>
      let need := top + 20
      if need > ascent then
        let inc := need - ascent
        some (ascent + inc, sTypoAscender + inc, usWinAscent + inc)
      else
        some (ascent, sTypoAscender, usWinAscent)

/-- The Katakana → Romaji table (lines 53–70): the single-character catalog, in source (insertion) order. -/
def ROMAJI : List (String × String) := [
  ("ァ", "A"),
  ("ア", "A"),
  ("ィ", "I"),
  ("イ", "I"),
  ("ゥ", "U"),
  ("ウ", "U"),
  ("ェ", "E"),
  ("エ", "E"),
  ("ォ", "O"),
  ("オ", "O"),
  ("カ", "KA"),
  ("ガ", "GA"),
  ("キ", "KI"),
  ("ギ", "GI"),
  ("ク", "KU"),
  ("グ", "GU"),
  ("ケ", "KE"),
  ("ゲ", "GE"),
  ("コ", "KO"),
  ("ゴ", "GO"),
  ("サ", "SA"),
  ("ザ", "ZA"),
  ("シ", "SHI"),
  ("ジ", "JI"),
  ("ス", "SU"),
  ("ズ", "ZU"),
  ("セ", "SE"),
  ("ゼ", "ZE"),
  ("ソ", "SO"),
  ("ゾ", "ZO"),
  ("タ", "TA"),
  ("ダ", "DA"),
  ("チ", "CHI"),
  ("ヂ", "JI"),
  ("ッ", "ʔ"),
  ("ツ", "TSU"),
  ("ヅ", "ZU"),
  ("テ", "TE"),
  ("デ", "DE"),
  ("ト", "TO"),
  ("ド", "DO"),
  ("ナ", "NA"),
  ("ニ", "NI"),
  ("ヌ", "NU"),
  ("ネ", "NE"),
  ("ノ", "NO"),
  ("ハ", "HA"),
  ("バ", "BA"),
  ("パ", "PA"),
  ("ヒ", "HI"),
  ("ビ", "BI"),
  ("ピ", "PI"),
  ("フ", "FU"),
  ("ブ", "BU"),
  ("プ", "PU"),
  ("ヘ", "HE"),
  ("ベ", "BE"),
  ("ペ", "PE"),
  ("ホ", "HO"),
  ("ボ", "BO"),
  ("ポ", "PO"),
  ("マ", "MA"),
  ("ミ", "MI"),
  ("ム", "MU"),
  ("メ", "ME"),
  ("モ", "MO"),
  ("ャ", "YA"),
  ("ヤ", "YA"),
  ("ュ", "YU"),
  ("ユ", "YU"),
  ("ョ", "YO"),
  ("ヨ", "YO"),
  ("ラ", "RA"),
  ("リ", "RI"),
  ("ル", "RU"),
  ("レ", "RE"),
  ("ロ", "RO"),
  ("ワ", "WA"),
  ("ヲ", "WO"),
  ("ン", "N"),
  ("ヴ", "VU"),
  ("ー", "-")]

/-- Youon combinations (lines 73–102): two-character entries. -/
def YOUON_COMBINATIONS : List (String × String) := [
  ("キャ", "KYA"),
  ("キュ", "KYU"),
  ("キョ", "KYO"),
  ("キェ", "KYE"),
  ("ギャ", "GYA"),
  ("ギュ", "GYU"),
  ("ギョ", "GYO"),
  ("ギェ", "GYE"),
  ("グァ", "GWA"),
  ("グィ", "GWI"),
  ("グェ", "GWE"),
  ("グォ", "GWO"),
  ("シャ", "SHA"),
  ("シュ", "SHU"),
  ("ショ", "SHO"),
  ("シェ", "SHE"),
  ("ジャ", "JA"),
  ("ジュ", "JU"),
  ("ジョ", "JO"),
  ("ジェ", "JE"),
  ("チャ", "CHA"),
  ("チュ", "CHU"),
  ("チョ", "CHO"),
  ("チェ", "CHE"),
  ("ヂャ", "JA"),
  ("ヂュ", "JU"),
  ("ヂョ", "JO"),
  ("ヂェ", "JE"),
  ("ティ", "TI"),
  ("トゥ", "TU"),
  ("テュ", "TYU"),
  ("ディ", "DI"),
  ("ドゥ", "DU"),
  ("デュ", "DYU"),
  ("ニャ", "NYA"),
  ("ニュ", "NYU"),
  ("ニョ", "NYO"),
  ("ニェ", "NYE"),
  ("ヒャ", "HYA"),
  ("ヒュ", "HYU"),
  ("ヒョ", "HYO"),
  ("ヒェ", "HYE"),
  ("ビャ", "BYA"),
  ("ビュ", "BYU"),
  ("ビョ", "BYO"),
  ("ビェ", "BYE"),
  ("ピャ", "PYA"),
  ("ピュ", "PYU"),
  ("ピョ", "PYO"),
  ("ピェ", "PYE"),
  ("ファ", "FA"),
  ("フィ", "FI"),
  ("フェ", "FE"),
  ("フォ", "FO"),
  ("フュ", "FYU"),
  ("ミャ", "MYA"),
  ("ミュ", "MYU"),
  ("ミョ", "MYO"),
  ("ミェ", "MYE"),
  ("リャ", "RYA"),
  ("リュ", "RYU"),
  ("リョ", "RYO"),
  ("リェ", "RYE"),
  ("ウィ", "WI"),
  ("ウェ", "WE"),
  ("ウォ", "WO"),
  ("ヴァ", "VA"),
  ("ヴィ", "VI"),
  ("ヴェ", "VE"),
  ("ヴォ", "VO"),
  ("ヴュ", "VYU")]

/-- Sokuon combinations (lines 105–120): two-character entries. -/
def SOKUON_COMBINATIONS : List (String × String) := [
  ("ッカ", "KKA"),
  ("ッキ", "KKI"),
  ("ック", "KKU"),
  ("ッケ", "KKE"),
  ("ッコ", "KKO"),
  ("ッガ", "GGA"),
  ("ッギ", "GGI"),
  ("ッグ", "GGU"),
  ("ッゲ", "GGE"),
  ("ッゴ", "GGO"),
  ("ッサ", "SSA"),
  ("ッシ", "SSHI"),
  ("ッス", "SSU"),
  ("ッセ", "SSE"),
  ("ッソ", "SSO"),
  ("ッザ", "ZZA"),
  ("ッジ", "JJI"),
  ("ッズ", "ZZU"),
  ("ッゼ", "ZZE"),
  ("ッゾ", "ZZO"),
  ("ッタ", "TTA"),
  ("ッチ", "CCHI"),
  ("ッツ", "TTSU"),
  ("ッテ", "TTE"),
  ("ット", "TTO"),
  ("ッダ", "DDA"),
  ("ッヂ", "JJI"),
  ("ッヅ", "ZZU"),
  ("ッデ", "DDE"),
  ("ッド", "DDO"),
  ("ッパ", "PPA"),
  ("ッピ", "PPI"),
  ("ップ", "PPU"),
  ("ッペ", "PPE"),
  ("ッポ", "PPO"),
  ("ッバ", "BBA"),
  ("ッビ", "BBI"),
  ("ッブ", "BBU"),
  ("ッベ", "BBE"),
  ("ッボ", "BBO"),
  ("ッフ", "FFU")]

/-- Complex combinations (lines 123–146): three-character entries. -/
def COMPLEX_COMBINATIONS : List (String × String) := [
  ("ッキャ", "KKYA"),
  ("ッキュ", "KKYU"),
  ("ッキョ", "KKYO"),
  ("ッキェ", "KKYE"),
  ("ッギャ", "GGYA"),
  ("ッギュ", "GGYU"),
  ("ッギョ", "GGYO"),
  ("ッギェ", "GGYE"),
  ("ッシャ", "SSHA"),
  ("ッシュ", "SSHU"),
  ("ッショ", "SSHO"),
  ("ッシェ", "SSHE"),
  ("ッジャ", "JJA"),
  ("ッジュ", "JJU"),
  ("ッジョ", "JJO"),
  ("ッジェ", "JJE"),
  ("ッチャ", "CCHA"),
  ("ッチュ", "CCHU"),
  ("ッチョ", "CCHO"),
  ("ッチェ", "CCHE"),
  ("ッティ", "TTI"),
  ("ットゥ", "TTU"),
  ("ッテュ", "TTYU"),
  ("ッディ", "DDI"),
  ("ッドゥ", "DDU"),
  ("ッデュ", "DDYU"),
  ("ッヒャ", "HHYA"),
  ("ッヒュ", "HHYU"),
  ("ッヒョ", "HHYO"),
  ("ッヒェ", "HHYE"),
  ("ッビャ", "BBYA"),
  ("ッビュ", "BBYU"),
  ("ッビョ", "BBYO"),
  ("ッビェ", "BBYE"),
  ("ッピャ", "PPYA"),
  ("ッピュ", "PPYU"),
  ("ッピョ", "PPYO"),
  ("ッピェ", "PPYE"),
  ("ッファ", "FFA"),
  ("ッフィ", "FFI"),
  ("ッフェ", "FFE"),
  ("ッフォ", "FFO"),
  ("ッフュ", "FFYU"),
  ("ッミャ", "MMYA"),
  ("ッミュ", "MMYU"),
  ("ッミョ", "MMYO"),
  ("ッミェ", "MMYE"),
  ("ッリャ", "RRYA"),
  ("ッリュ", "RRYU"),
  ("ッリョ", "RRYO"),
  ("ッリェ", "RRYE"),
  ("ッヴァ", "VVA"),
  ("ッヴィ", "VVI"),
  ("ッヴェ", "VVE"),
  ("ッヴォ", "VVO"),
  ("ッヴュ", "VVYU")]

/-- One catalog group loop (lines 346–349 / 352–357 / 360–365 / 368–373):
synthesize each entry's glyph (a raised `KeyError` aborts the whole loop),
insert it into the glyph dict, and record the `(input key → glyph name)`
association. -/
def processGroup (cfg : Config) (pyHash : String → Int) (jp romaji : SrcFont)
    (suffix : String) :
    List (String × String) → List (String × GlyphResult) →
      Option (List (String × GlyphResult) × List (String × String))
  | [], tbl => some (tbl, [])
  | q :: rest, tbl =>
    match make_combined_glyph cfg pyHash jp romaji q.1 q.2 suffix with
    | none => none
    | some g =>
      match processGroup cfg pyHash jp romaji suffix rest
          (dictInsert tbl g.name g) with
      | none => none
      | some (tbl2, assoc) => some (tbl2, (q.1, g.name) :: assoc)

/-- The `.notdef` glyph copied from the base font (lines 339-341): the
outline copy is opaque to this model, the `hmtx` record is the source's. -/
def notdefGlyph (jp : SrcFont) : GlyphResult :=
  ⟨".notdef", [], (jp.hmtx ".notdef").1, (jp.hmtx ".notdef").2⟩

/-- Everything `build_font` reads besides the catalogs: the two source
fonts, the configuration, the inherited vertical metrics of the base font,
Python's process string hash, the wall clock, the outcome of the external
`addOpenTypeFeatures` call (line 394), and the per-glyph `yMax` computed by
the external `recalcBounds` pass (lines 401–403; `none` = no contours). -/
structure BuildEnv where
  jp : SrcFont
  romaji : SrcFont
  cfg : Config
  pyHash : String → Int
  jpAscent : Int
  jpTypoAscender : Int
  jpWinAscent : Int
  now : Int
  addFeaturesOk : Bool
  yMaxOut : String → Option Int

/-- The derived tables handed to the output font store: glyph order, glyph
table, pruned character map, the `liga` rule set (`none` when the
`addOpenTypeFeatures` stage failed and was skipped), corrected vertical
metrics and the two `head` timestamps. -/
structure FontOut where
  glyphOrder : List String
  glyphs : List (String × GlyphResult)
  cmap : List (Nat × String)
  liga : Option (List LigaRule)
  ascent : Int
  sTypoAscender : Int
  usWinAscent : Int
  created : Int
  modified : Int

/-- Value of `int(datetime(2025, 7, 25, 0, 6, 0, tzinfo=JST).timestamp())`. -/
def CREATION_EPOCH : Int := 1753369560

/-- The epoch-to-font-format timestamp offset (lines 317 and 320). -/
def FONT_EPOCH_OFFSET : Int := 2082844800

/-- Line 349: `cmap_map[ord(kana)] = gname`, over the whole single-character
group, as Python dict insertions. -/
def cmapMapOf (assoc : List (String × String)) : List (Nat × String) :=
  assoc.foldl (fun d p => dictInsert d (ordFirst p.1) p.2) []

/-- Lines 381–386: prune the base font's cmap — keep exactly the codepoints
present in `cmap_map`, remapped to the synthesized glyph names.  (The
per-subtable structure and the dropping of emptied subtables are collapsed
into the one surviving mapping.) -/
def prunedCmap (jp : SrcFont) (cmap_map : List (Nat × String)) :
    List (Nat × String) :=
  jp.cmapList.filterMap (fun p =>
    (lookupA cmap_map p.1).map (fun g => (p.1, g)))

/-- Function `build_font` (lines 299–491) restricted to the derived-table core: the
header/name-table copying and serialisation are external I/O.  Any `none`
is an uncaught exception aborting the build — except the feature-addition
stage, whose failure is caught at lines 396–398 and merely leaves the
output without `liga` rules. -/
def build_font (env : BuildEnv) : Option FontOut := do
  let tbl0 := [(".notdef", notdefGlyph env.jp)]
  let (tbl1, romAssoc) ←
    processGroup env.cfg env.pyHash env.jp env.romaji "" ROMAJI tbl0
  let cmap_map := cmapMapOf romAssoc
  let (tbl2, youonG) ←
    processGroup env.cfg env.pyHash env.jp env.romaji "_youon"
      YOUON_COMBINATIONS tbl1
  let (tbl3, sokuonG) ←
    processGroup env.cfg env.pyHash env.jp env.romaji "_sokuon"
      SOKUON_COMBINATIONS tbl2
  let (tbl4, complexG) ←
    processGroup env.cfg env.pyHash env.jp env.romaji "_complex"
      COMPLEX_COMBINATIONS tbl3
  let glyph_names := tbl4.map (fun p => p.1)
  let font_cmap := prunedCmap env.jp cmap_map
  let rules :=
    generate_liga_rules (lookupA cmap_map) youonG sokuonG complexG
  let liga := if env.addFeaturesOk then some rules else none
  let tops := glyph_names.filterMap env.yMaxOut
  let fixed ← fixAscent env.jpAscent env.jpTypoAscender env.jpWinAscent tops
  some
    { glyphOrder := glyph_names
      glyphs := tbl4
      cmap := font_cmap
      liga := liga
      ascent := fixed.1
      sTypoAscender := fixed.2.1
      usWinAscent := fixed.2.2
      created := CREATION_EPOCH + FONT_EPOCH_OFFSET
      modified := env.now + FONT_EPOCH_OFFSET }

/-- Unrolled form of the label-drawing loop of lines 235–241: each mappable
character yields one draw command at the running cursor, unmapped
characters are skipped without advancing. -/
def labelRun (cfg : Config) (romaji : SrcFont) (yStart : Int) :
    List Char → Int → List DrawCmd
  | [], _ => []
  | ch :: rest, x =>
    match romaji.cmapLookup ch.toNat with
    | some rname =>
        ⟨FontSel.romaji, rname, x, yStart⟩ ::
          labelRun cfg romaji yStart rest
            (x + (cfg.scaleRomaji (glyph_metrics romaji rname).1 : Int))
    | none => labelRun cfg romaji yStart rest x

/-- Unrolled form of the base-run drawing loop of lines 216–220. -/
def baseRun (cfg : Config) : List (String × Nat) → Int → List DrawCmd
  | [], _ => []
  | p :: rest, x =>
    ⟨FontSel.jp, p.1, x, cfg.vertOffset⟩ :: baseRun cfg rest (x + (p.2 : Int))

/-- Scaled advance width that one base-run character contributes
(zero when it is absent from the base cmap). -/
def scaledAwOfCp (cfg : Config) (jp : SrcFont) (c : Char) : Nat :=
  match jp.cmapLookup c.toNat with
  | some src => cfg.scaleKana (glyph_metrics jp src).1
  | none => 0

/-- The glyph names the build derives, in processing order (the glyph dict
keys coincide with this list whenever no derived names collide):
`.notdef`, then the four catalog groups with their suffixes. -/
def allGlyphNames (pyHash : String → Int) : List String :=
  ".notdef" ::
    (ROMAJI.map (fun p => dstName pyHash p.1 "")
      ++ YOUON_COMBINATIONS.map (fun p => dstName pyHash p.1 "_youon")
      ++ SOKUON_COMBINATIONS.map (fun p => dstName pyHash p.1 "_sokuon")
      ++ COMPLEX_COMBINATIONS.map (fun p => dstName pyHash p.1 "_complex"))

/-- Concrete base font used for witnesses: it covers the whole Katakana
block U+30A1–U+30FC. -/
def jpW : SrcFont :=
  { cmapList := (List.range 92).map (fun i => (0x30A1 + i, "jg" ++ natToHexU (0x30A1 + i)))
    hmtx := fun _ => (500, 10)
    yMaxF := fun _ => 700
    hasContours := fun _ => true }

/-- Concrete label font used for witnesses: it covers printable ASCII
(so the glottal stop `ʔ` of `ッ` is absent, as in Noto Sans Mono). -/
def romW : SrcFont :=
  { cmapList := (List.range 95).map (fun i => (0x20 + i, "rg" ++ natToHexU (0x20 + i)))
    hmtx := fun _ => (600, 0)
    yMaxF := fun _ => 650
    hasContours := fun _ => true }

/-- Concrete configuration used for witnesses (scales 0.7 and 0.3). -/
def cfgW : Config :=
  { scaleKana := fun aw => aw * 7 / 10
    scaleRomaji := fun aw => aw * 3 / 10
    gap := 50
    refHeightScaled := 490
    vertOffset := 0
    horizOffset := 0 }

/-- A concrete, collision-free stand-in for one run's `hash`: the base-2^21
digits of the codepoints. -/
def hW : String → Int := fun s =>
  ((s.data.foldl (fun a c => a * 2097152 + c.toNat) 0 : Nat) : Int)

/-- A degenerate constant stand-in for an (adversarial) run of `hash`. -/
def h0 : String → Int := fun _ => 0

/-- A second constant stand-in for a different run of `hash`. -/
def h1 : String → Int := fun _ => 1

/-- A base font that lacks `カ` (U+30AB) but still has `ッ` (U+30C3). -/
def jpPartial : SrcFont :=
  { cmapList := [(0x30C3, "tu")]
    hmtx := fun _ => (500, 10)
    yMaxF := fun _ => 700
    hasContours := fun _ => true }

/-- Witness build environment (feature addition succeeds). -/
def envW : BuildEnv :=
  { jp := jpW, romaji := romW, cfg := cfgW, pyHash := hW
    jpAscent := 880, jpTypoAscender := 720, jpWinAscent := 880
    now := 1760227200, addFeaturesOk := true, yMaxOut := fun _ => some 900 }

/-- The same environment with a failing `addOpenTypeFeatures` call. -/
def envNoLiga : BuildEnv :=
  { envW with addFeaturesOk := false }

/-- Placeholder output used with `Option.getD`. -/
def defaultFontOut : FontOut :=
  ⟨[], [], [], none, 0, 0, 0, 0, 0⟩


/-- Placeholder glyph used with `Option.getD`. -/
def defaultGlyph : GlyphResult :=
  ⟨"", [], 0, 0⟩

/-- Concrete composite glyph for `キャ` under the witness environment. -/
def gKYA : GlyphResult :=
  (make_combined_glyph cfgW hW jpW romW "キャ" "KYA" "_youon").getD defaultGlyph

/-- Concrete composite glyph for the sokuon `ッ`, whose label `ʔ` lies
outside the witness label font's coverage. -/
def gTSU : GlyphResult :=
  (make_combined_glyph cfgW hW jpW romW "ッ" "ʔ" "").getD defaultGlyph

/-- A hash stand-in that agrees with `hW` on `キャ` but nowhere else. -/
def hVar : String → Int := fun s => if s = "キャ" then hW "キャ" else 0

/-- A character map stand-in mapping every codepoint. -/
def mAll : Nat → Option String := fun _ => some "G"

/-- Tiny witness groups for the rule generator. -/
def yC3 : List (String × String) := [("キャ", "Y")]

/-- Tiny witness groups for the rule generator (sokuon part). -/
def sC3 : List (String × String) := []

/-- Tiny witness groups for the rule generator (complex part). -/
def cC3 : List (String × String) := [("ッキャ", "C")]



/-- The `(kana → glyph name)` association the single-character loop records. -/
def romAssocOf (h : String → Int) : List (String × String) :=
  ROMAJI.map (fun p => (p.1, dstName h p.1 ""))

/-- The `youon_glyphs` association (lines 353–357). -/
def youonAssocOf (h : String → Int) : List (String × String) :=
  YOUON_COMBINATIONS.map (fun p => (p.1, dstName h p.1 "_youon"))

/-- The `sokuon_glyphs` association (lines 361–365). -/
def sokuonAssocOf (h : String → Int) : List (String × String) :=
  SOKUON_COMBINATIONS.map (fun p => (p.1, dstName h p.1 "_sokuon"))

/-- The `complex_glyphs` association (lines 369–373). -/
def complexAssocOf (h : String → Int) : List (String × String) :=
  COMPLEX_COMBINATIONS.map (fun p => (p.1, dstName h p.1 "_complex"))

/-- The `cmap_map` dict of a successful build. -/
def cmapMapW (h : String → Int) : List (Nat × String) :=
  cmapMapOf (romAssocOf h)

/-- The rule set a successful build feeds to `addOpenTypeFeatures`. -/
def rulesOf (h : String → Int) : List LigaRule :=
  generate_liga_rules (lookupA (cmapMapW h)) (youonAssocOf h) (sokuonAssocOf h)
    (complexAssocOf h)

/-- The witness environment with the deficient base font `jpPartial`. -/
def envBad : BuildEnv :=
  { envW with jp := jpPartial }

/-- The build output of the witness environment. -/
def outW : FontOut :=
  (build_font envW).getD defaultFontOut

/-- The build output of the witness environment whose feature stage fails. -/
def outNL : FontOut :=
  (build_font envNoLiga).getD defaultFontOut


/-! ## General lemmas about the synthesizer -/

theorem labelCmds_eq (cfg : Config) (rom : SrcFont) (t : String) (x y : Int) :
    labelCmds cfg rom t x y = labelRun cfg rom y t.data x := by
  unfold labelCmds
  suffices h : ∀ (cs : List Char) (acc : List DrawCmd) (x : Int),
      (cs.foldl (fun (acc : List DrawCmd × Int) ch =>
        match rom.cmapLookup ch.toNat with
        | some rname =>
            (acc.1 ++ [⟨FontSel.romaji, rname, acc.2, y⟩],
             acc.2 + (cfg.scaleRomaji (glyph_metrics rom rname).1 : Int))
        | none => acc) (acc, x)).1 = acc ++ labelRun cfg rom y cs x by
    simpa using h t.data [] x
  intro cs
  induction cs with
  | nil => intro acc x; simp [labelRun]
  | cons c rest ih =>
      intro acc x
      cases hc : rom.cmapLookup c.toNat with
      | some r => simp [labelRun, hc, ih]
      | none => simp [labelRun, hc, ih]

theorem baseCmdsMulti_eq (cfg : Config) (kws : List (String × Nat)) :
    baseCmdsMulti cfg kws = baseRun cfg kws cfg.horizOffset := by
  unfold baseCmdsMulti
  suffices h : ∀ (l : List (String × Nat)) (acc : List DrawCmd) (x : Int),
      (l.foldl (fun (acc : List DrawCmd × Int) p =>
        (acc.1 ++ [⟨FontSel.jp, p.1, acc.2, cfg.vertOffset⟩],
         acc.2 + (p.2 : Int))) (acc, x)).1 = acc ++ baseRun cfg l x by
    simpa using h kws [] cfg.horizOffset
  intro l
  induction l with
  | nil => intro acc x; simp [baseRun]
  | cons p rest ih => intro acc x; simp [baseRun, ih]

theorem labelRun_length (cfg : Config) (rom : SrcFont) (y : Int) :
    ∀ (cs : List Char) (x : Int),
      (labelRun cfg rom y cs x).length =
        (cs.filter (fun c => (rom.cmapLookup c.toNat).isSome)).length := by
  intro cs
  induction cs with
  | nil => intro x; simp [labelRun]
  | cons c rest ih =>
      intro x
      cases hc : rom.cmapLookup c.toNat with
      | some r => simp [labelRun, hc, ih]
      | none => simp [labelRun, hc, ih]

theorem labelRun_fonts (cfg : Config) (rom : SrcFont) (y : Int) :
    ∀ (cs : List Char) (x : Int) (d : DrawCmd),
      d ∈ labelRun cfg rom y cs x → d.font = FontSel.romaji := by
  intro cs
  induction cs with
  | nil => intro x d hd; simp [labelRun] at hd
  | cons c rest ih =>
      intro x d hd
      cases hc : rom.cmapLookup c.toNat with
      | some r =>
          rw [labelRun, hc] at hd
          rcases List.mem_cons.mp hd with h | h
          · rw [h]
          · exact ih _ d h
      | none =>
          rw [labelRun, hc] at hd
          exact ih _ d hd

theorem labelRun_head (cfg : Config) (rom : SrcFont) (y : Int) :
    ∀ (cs : List Char) (x : Int),
      cs.filter (fun c => (rom.cmapLookup c.toNat).isSome) ≠ [] →
      ((labelRun cfg rom y cs x).head?).map DrawCmd.dx = some x := by
  intro cs
  induction cs with
  | nil => intro x h; simp at h
  | cons c rest ih =>
      intro x h
      cases hc : rom.cmapLookup c.toNat with
      | some r => simp [labelRun, hc]
      | none =>
          rw [labelRun, hc]
          refine ih x ?_
          simpa [List.filter_cons, hc] using h

theorem baseRun_fonts (cfg : Config) :
    ∀ (l : List (String × Nat)) (x : Int) (d : DrawCmd),
      d ∈ baseRun cfg l x → d.font = FontSel.jp := by
  intro l
  induction l with
  | nil => intro x d hd; simp [baseRun] at hd
  | cons p rest ih =>
      intro x d hd
      rw [baseRun] at hd
      rcases List.mem_cons.mp hd with h | h
      · rw [h]
      · exact ih _ d h

theorem baseRun_length (cfg : Config) :
    ∀ (l : List (String × Nat)) (x : Int),
      (baseRun cfg l x).length = l.length := by
  intro l
  induction l with
  | nil => intro x; simp [baseRun]
  | cons p rest ih => intro x; simp [baseRun, ih]

theorem cmds_filter_romaji (base lab : List DrawCmd)
    (hb : ∀ d ∈ base, d.font = FontSel.jp)
    (hl : ∀ d ∈ lab, d.font = FontSel.romaji) :
    (base ++ lab).filter (fun d => d.font == FontSel.romaji) = lab := by
  rw [List.filter_append]
  have h1 : base.filter (fun d => d.font == FontSel.romaji) = [] := by
    apply List.filter_eq_nil_iff.mpr
    intro d hd
    simp [hb d hd]
  have h2 : lab.filter (fun d => d.font == FontSel.romaji) = lab := by
    apply List.filter_eq_self.mpr
    intro d hd
    simp [hl d hd]
  rw [h1, h2, List.nil_append]

theorem cmds_filter_jp (base lab : List DrawCmd)
    (hb : ∀ d ∈ base, d.font = FontSel.jp)
    (hl : ∀ d ∈ lab, d.font = FontSel.romaji) :
    (base ++ lab).filter (fun d => d.font == FontSel.jp) = base := by
  rw [List.filter_append]
  have h1 : base.filter (fun d => d.font == FontSel.jp) = base := by
    apply List.filter_eq_self.mpr
    intro d hd
    simp [hb d hd]
  have h2 : lab.filter (fun d => d.font == FontSel.jp) = [] := by
    apply List.filter_eq_nil_iff.mpr
    intro d hd
    simp [hl d hd]
  rw [h1, h2, List.append_nil]

theorem make_eq_single (cfg : Config) (pyHash : String → Int) (jp rom : SrcFont)
    (kana rt sfx : String) (src : String)
    (hk : kana.length = 1) (hc : jp.cmapLookup (ordFirst kana) = some src) :
    make_combined_glyph cfg pyHash jp rom kana rt sfx =
      some (finishGlyph cfg rom (dstName pyHash kana sfx)
        [⟨FontSel.jp, src, cfg.horizOffset, cfg.vertOffset⟩]
        (cfg.scaleKana (glyph_metrics jp src).1) rt) := by
  simp [make_combined_glyph, hk, hc]

theorem make_eq_multi (cfg : Config) (pyHash : String → Int) (jp rom : SrcFont)
    (kana rt sfx : String) (src : String)
    (hk : ¬ kana.length = 1) (hc : jp.cmapLookup (ordFirst kana) = some src) :
    make_combined_glyph cfg pyHash jp rom kana rt sfx =
      some (finishGlyph cfg rom (dstName pyHash kana sfx)
        (baseCmdsMulti cfg (kanaWidths cfg jp kana))
        ((kanaWidths cfg jp kana).map (fun p => p.2)).sum rt) := by
  simp [make_combined_glyph, hk, hc]

theorem make_eq_none (cfg : Config) (pyHash : String → Int) (jp rom : SrcFont)
    (kana rt sfx : String)
    (hc : jp.cmapLookup (ordFirst kana) = none) :
    make_combined_glyph cfg pyHash jp rom kana rt sfx = none := by
  by_cases hk : kana.length = 1 <;> simp [make_combined_glyph, hk, hc]

theorem make_isSome_iff (cfg : Config) (pyHash : String → Int) (jp rom : SrcFont)
    (kana rt sfx : String) :
    (make_combined_glyph cfg pyHash jp rom kana rt sfx).isSome =
      (jp.cmapLookup (ordFirst kana)).isSome := by
  cases hc : jp.cmapLookup (ordFirst kana) with
  | none => rw [make_eq_none cfg pyHash jp rom kana rt sfx hc]; rfl
  | some src =>
      by_cases hk : kana.length = 1
      · rw [make_eq_single cfg pyHash jp rom kana rt sfx src hk hc]; rfl
      · rw [make_eq_multi cfg pyHash jp rom kana rt sfx src hk hc]; rfl

theorem make_name (cfg : Config) (pyHash : String → Int) (jp rom : SrcFont)
    (kana rt sfx : String) (g : GlyphResult)
    (hmk : make_combined_glyph cfg pyHash jp rom kana rt sfx = some g) :
    g.name = dstName pyHash kana sfx := by
  cases hc : jp.cmapLookup (ordFirst kana) with
  | none => rw [make_eq_none cfg pyHash jp rom kana rt sfx hc] at hmk; cases hmk
  | some src =>
      by_cases hk : kana.length = 1
      · rw [make_eq_single cfg pyHash jp rom kana rt sfx src hk hc] at hmk
        cases hmk; rfl
      · rw [make_eq_multi cfg pyHash jp rom kana rt sfx src hk hc] at hmk
        cases hmk; rfl

theorem finishGlyph_advance (cfg : Config) (rom : SrcFont) (n : String)
    (base : List DrawCmd) (aw : Nat) (rt : String) :
    (finishGlyph cfg rom n base aw rt).advanceWidth = aw := rfl

theorem finishGlyph_lsb (cfg : Config) (rom : SrcFont) (n : String)
    (base : List DrawCmd) (aw : Nat) (rt : String) :
    (finishGlyph cfg rom n base aw rt).lsb = 0 := rfl

theorem finishGlyph_cmds (cfg : Config) (rom : SrcFont) (n : String)
    (base : List DrawCmd) (aw : Nat) (rt : String) :
    (finishGlyph cfg rom n base aw rt).cmds =
      base ++ labelCmds cfg rom rt
        (max (Int.fdiv ((aw : Int) - (labelWidth cfg rom rt : Int)) 2) 0
          + cfg.horizOffset)
        (cfg.refHeightScaled + cfg.gap + cfg.vertOffset) := rfl

theorem kanaWidths_snd_all_mapped (cfg : Config) (jp : SrcFont) :
    ∀ (cs : List Char), (∀ c ∈ cs, (jp.cmapLookup c.toNat).isSome) →
      ((cs.filterMap (fun c =>
        (jp.cmapLookup c.toNat).map
          (fun src => (src, cfg.scaleKana (glyph_metrics jp src).1)))).map
            (fun p => p.2)) = cs.map (scaledAwOfCp cfg jp) := by
  intro cs
  induction cs with
  | nil => intro _; simp
  | cons c rest ih =>
      intro h
      have hc : (jp.cmapLookup c.toNat).isSome := h c (List.mem_cons_self c rest)
      obtain ⟨src, hsrc⟩ := Option.isSome_iff_exists.mp hc
      have hr := ih (fun d hd => h d (List.mem_cons_of_mem c hd))
      simp [hsrc, hr, scaledAwOfCp]

/-! ## Claim theorems -/

/-- C1: for every catalog entry (1-, 2- and 3-character sequences alike),
the advance width stored for the synthesized composite glyph equals the
sum of the scaled advance widths of its base-run members, and the label
run's width is never part of that advance width (the stored width is
unchanged under any label text and label font). -/
theorem C1_advance_is_base_run_sum (cfg : Config) (pyHash : String → Int)
    (jp rom : SrcFont) (kana rt sfx : String) (g : GlyphResult)
    (hmap : ∀ c ∈ kana.data, (jp.cmapLookup c.toNat).isSome)
    (hmk : make_combined_glyph cfg pyHash jp rom kana rt sfx = some g) :
    g.advanceWidth = (kana.data.map (scaledAwOfCp cfg jp)).sum ∧
    ∀ (rt' : String) (rom' : SrcFont),
      (make_combined_glyph cfg pyHash jp rom' kana rt' sfx).map
        GlyphResult.advanceWidth = some g.advanceWidth := by
  have hsome : (jp.cmapLookup (ordFirst kana)).isSome := by
    have h := make_isSome_iff cfg pyHash jp rom kana rt sfx
    rw [hmk] at h
    exact h.symm ▸ rfl
  obtain ⟨src, hc⟩ := Option.isSome_iff_exists.mp hsome
  by_cases hk : kana.length = 1
  · obtain ⟨c, hdata⟩ := List.length_eq_one.mp (show kana.data.length = 1 from hk)
    have hord : ordFirst kana = c.toNat := by simp [ordFirst, hdata]
    have hc' : jp.cmapLookup c.toNat = some src := by rw [← hord]; exact hc
    rw [make_eq_single cfg pyHash jp rom kana rt sfx src hk hc] at hmk
    have hadv : g.advanceWidth = cfg.scaleKana (glyph_metrics jp src).1 := by
      cases hmk; rfl
    constructor
    · rw [hadv, hdata]
      simp [scaledAwOfCp, hc']
    · intro rt' rom'
      rw [make_eq_single cfg pyHash jp rom' kana rt' sfx src hk hc]
      simp [hadv, finishGlyph_advance]
  · rw [make_eq_multi cfg pyHash jp rom kana rt sfx src hk hc] at hmk
    have hadv : g.advanceWidth = ((kanaWidths cfg jp kana).map (fun p => p.2)).sum := by
      cases hmk; rfl
    constructor
    · rw [hadv]
      rw [show (kanaWidths cfg jp kana).map (fun p => p.2)
            = kana.data.map (scaledAwOfCp cfg jp) from
          kanaWidths_snd_all_mapped cfg jp kana.data hmap]
    · intro rt' rom'
      rw [make_eq_multi cfg pyHash jp rom' kana rt' sfx src hk hc]
      simp [hadv, finishGlyph_advance]

theorem C1_advance_is_base_run_sum_witness :
    gKYA.advanceWidth = ("キャ".data.map (scaledAwOfCp cfgW jpW)).sum ∧
    (make_combined_glyph cfgW hW jpW romW "キャ" "X" "_youon").map
      GlyphResult.advanceWidth = some gKYA.advanceWidth := by
  have h := C1_advance_is_base_run_sum cfgW hW jpW romW "キャ" "KYA" "_youon" gKYA
    (by decide) (by decide)
  exact ⟨h.1, h.2 "X" romW⟩

/-- C10: every synthesized composite glyph is stored in the horizontal
metrics table with a left side bearing of exactly 0 (line 245 always
records `(aw_k_scaled, 0)`). -/
theorem C10_lsb_always_zero (cfg : Config) (pyHash : String → Int)
    (jp rom : SrcFont) (kana rt sfx : String) (g : GlyphResult)
    (hmk : make_combined_glyph cfg pyHash jp rom kana rt sfx = some g) :
    g.lsb = 0 := by
  cases hc : jp.cmapLookup (ordFirst kana) with
  | none => rw [make_eq_none cfg pyHash jp rom kana rt sfx hc] at hmk; cases hmk
  | some src =>
      by_cases hk : kana.length = 1
      · rw [make_eq_single cfg pyHash jp rom kana rt sfx src hk hc] at hmk
        cases hmk; rfl
      · rw [make_eq_multi cfg pyHash jp rom kana rt sfx src hk hc] at hmk
        cases hmk; rfl

theorem C10_lsb_always_zero_witness : gKYA.lsb = 0 :=
  C10_lsb_always_zero cfgW hW jpW romW "キャ" "KYA" "_youon" gKYA (by decide)

theorem kanaWidths_length (cfg : Config) (jp : SrcFont) :
    ∀ (cs : List Char),
      (cs.filterMap (fun c =>
        (jp.cmapLookup c.toNat).map
          (fun src => (src, cfg.scaleKana (glyph_metrics jp src).1)))).length =
      (cs.filter (fun c => (jp.cmapLookup c.toNat).isSome)).length := by
  intro cs
  induction cs with
  | nil => simp
  | cons c rest ih =>
      cases hc : jp.cmapLookup c.toNat with
      | some r => simp [hc, ih]
      | none => simp [hc, ih]

theorem max?_le_of_mem {l : List Int} {a t : Int}
    (hm : l.max? = some a) (ht : t ∈ l) : t ≤ a := by
  have inst : Std.Antisymm (fun (x y : Int) => x ≤ y) := ⟨fun {a b} h h' => le_antisymm h h'⟩
  rw [List.max?_eq_some_iff] at hm
  · exact hm.2 t ht
  · exact fun x => le_refl x
  · exact fun a b => max_choice a b
  · exact fun a b c => max_le_iff

/-- C5: the label run starts at
`max((baseRunWidth − labelWidth) // 2, 0) + HORIZ_OFFSET` (line 231); the
offset from the base-run start (which is `HORIZ_OFFSET`) is never
negative, equals `(baseRunWidth − labelWidth) / 2` for a label no wider
than its base run, and collapses to the base-run start for a wider label. -/
theorem C5_label_start (cfg : Config) (pyHash : String → Int)
    (jp rom : SrcFont) (kana rt sfx : String) (g : GlyphResult)
    (hne : kana ≠ "")
    (hlab : rt.data.filter (fun c => (rom.cmapLookup c.toNat).isSome) ≠ [])
    (hmk : make_combined_glyph cfg pyHash jp rom kana rt sfx = some g) :
    ((g.cmds.filter (fun d => d.font == FontSel.romaji)).head?).map DrawCmd.dx =
      some (max (Int.fdiv ((g.advanceWidth : Int) - (labelWidth cfg rom rt : Int)) 2) 0
        + cfg.horizOffset) ∧
    ((g.cmds.filter (fun d => d.font == FontSel.jp)).head?).map DrawCmd.dx =
      some cfg.horizOffset ∧
    0 ≤ max (Int.fdiv ((g.advanceWidth : Int) - (labelWidth cfg rom rt : Int)) 2) 0 ∧
    (labelWidth cfg rom rt ≤ g.advanceWidth →
      max (Int.fdiv ((g.advanceWidth : Int) - (labelWidth cfg rom rt : Int)) 2) 0 =
        ((g.advanceWidth : Int) - (labelWidth cfg rom rt : Int)) / 2) ∧
    (g.advanceWidth < labelWidth cfg rom rt →
      max (Int.fdiv ((g.advanceWidth : Int) - (labelWidth cfg rom rt : Int)) 2) 0 = 0) := by
  have hsome : (jp.cmapLookup (ordFirst kana)).isSome := by
    have h := make_isSome_iff cfg pyHash jp rom kana rt sfx
    rw [hmk] at h
    exact h.symm ▸ rfl
  obtain ⟨src, hc⟩ := Option.isSome_iff_exists.mp hsome
  have harith :
      0 ≤ max (Int.fdiv ((g.advanceWidth : Int) - (labelWidth cfg rom rt : Int)) 2) 0 ∧
      (labelWidth cfg rom rt ≤ g.advanceWidth →
        max (Int.fdiv ((g.advanceWidth : Int) - (labelWidth cfg rom rt : Int)) 2) 0 =
          ((g.advanceWidth : Int) - (labelWidth cfg rom rt : Int)) / 2) ∧
      (g.advanceWidth < labelWidth cfg rom rt →
        max (Int.fdiv ((g.advanceWidth : Int) - (labelWidth cfg rom rt : Int)) 2) 0 = 0) := by
    refine ⟨le_max_right _ _, ?_, ?_⟩
    · intro hle
      have h0 : (0 : Int) ≤ (g.advanceWidth : Int) - (labelWidth cfg rom rt : Int) := by
        have := Int.ofNat_le.mpr hle
        omega
      rw [Int.fdiv_eq_ediv _ (by norm_num)]
      exact max_eq_left (Int.ediv_nonneg h0 (by norm_num))
    · intro hlt
      have h0 : (g.advanceWidth : Int) - (labelWidth cfg rom rt : Int) < 0 := by
        have := Int.ofNat_lt.mpr hlt
        omega
      rw [Int.fdiv_eq_ediv _ (by norm_num)]
      exact max_eq_right (le_of_lt (Int.ediv_neg' h0 (by norm_num)))
  by_cases hk : kana.length = 1
  · rw [make_eq_single cfg pyHash jp rom kana rt sfx src hk hc] at hmk
    cases hmk
    refine ⟨?_, ?_, harith⟩
    · rw [finishGlyph_cmds, finishGlyph_advance, labelCmds_eq,
        cmds_filter_romaji _ _ (by intro d hd; simp at hd; rw [hd])
          (labelRun_fonts cfg rom _ rt.data _),
        labelRun_head cfg rom _ rt.data _ hlab]
    · rw [finishGlyph_cmds, labelCmds_eq,
        cmds_filter_jp _ _ (by intro d hd; simp at hd; rw [hd])
          (labelRun_fonts cfg rom _ rt.data _)]
      rfl
  · have hdata : ∃ c cs, kana.data = c :: cs := by
      cases hd : kana.data with
      | nil =>
          exact absurd (by
            have : kana = "" := by
              cases kana with
              | mk d => simp at hd; rw [hd]
          
            exact this) hne
      | cons c cs => exact ⟨c, cs, rfl⟩
    obtain ⟨c, cs, hdata⟩ := hdata
    have hord : ordFirst kana = c.toNat := by simp [ordFirst, hdata]
    have hc' : jp.cmapLookup c.toNat = some src := by rw [← hord]; exact hc
    rw [make_eq_multi cfg pyHash jp rom kana rt sfx src hk hc] at hmk
    cases hmk
    have hkw : ∃ q qs, kanaWidths cfg jp kana = q :: qs := by
      unfold kanaWidths
      rw [hdata]
      simp [hc']
    obtain ⟨q, qs, hkw⟩ := hkw
    refine ⟨?_, ?_, harith⟩
    · rw [finishGlyph_cmds, finishGlyph_advance, labelCmds_eq,
        cmds_filter_romaji _ _
          (by
            intro d hd
            rw [baseCmdsMulti_eq] at hd
            exact baseRun_fonts cfg _ _ d hd)
          (labelRun_fonts cfg rom _ rt.data _),
        labelRun_head cfg rom _ rt.data _ hlab]
    · rw [finishGlyph_cmds, labelCmds_eq,
        cmds_filter_jp _ _
          (by
            intro d hd
            rw [baseCmdsMulti_eq] at hd
            exact baseRun_fonts cfg _ _ d hd)
          (labelRun_fonts cfg rom _ rt.data _),
        baseCmdsMulti_eq, hkw]
      rfl

theorem C5_label_start_witness :
    ((gKYA.cmds.filter (fun d => d.font == FontSel.romaji)).head?).map DrawCmd.dx =
      some (max (Int.fdiv ((gKYA.advanceWidth : Int) - (labelWidth cfgW romW "KYA" : Int)) 2) 0
        + cfgW.horizOffset) ∧
    max (Int.fdiv ((gKYA.advanceWidth : Int) - (labelWidth cfgW romW "KYA" : Int)) 2) 0 =
      ((gKYA.advanceWidth : Int) - (labelWidth cfgW romW "KYA" : Int)) / 2 := by
  have h := C5_label_start cfgW hW jpW romW "キャ" "KYA" "_youon" gKYA
    (by decide) (by decide) (by decide)
  exact ⟨h.1, h.2.2.2.1 (by decide)⟩

theorem ruleFor3_length (m : Nat → Option String) (p : String × String)
    (r : LigaRule) (h : ruleFor3 m p = some r) : r.inputs.length = 3 := by
  unfold ruleFor3 at h
  cases hm1 : m (cpAt p.1 0) with
  | none => simp [hm1] at h
  | some g1 =>
    cases hm2 : m (cpAt p.1 1) with
    | none => simp [hm1, hm2] at h
    | some g2 =>
      cases hm3 : m (cpAt p.1 2) with
      | none => simp [hm1, hm2, hm3] at h
      | some g3 =>
          simp only [hm1, hm2, hm3] at h
          cases h
          rfl

theorem ruleFor2_length (m : Nat → Option String) (p : String × String)
    (r : LigaRule) (h : ruleFor2 m p = some r) : r.inputs.length = 2 := by
  unfold ruleFor2 at h
  cases hm1 : m (cpAt p.1 0) with
  | none => simp [hm1] at h
  | some g1 =>
    cases hm2 : m (cpAt p.1 1) with
    | none => simp [hm1, hm2] at h
    | some g2 =>
        simp only [hm1, hm2] at h
        cases h
        rfl

/-- C6 (amended): lookup tolerance is asymmetric but the hard failure only
guards the *first* base-run character — `make_combined_glyph` fails (with
the `KeyError` standing for `MissingGlyphOutline`) exactly when the first
base character has no cmap entry; a label character absent from the label
font, and likewise a *non-first* base character of a multi-character run
absent from the base font, are silently skipped, contributing neither
width nor drawing commands. -/
theorem C6_first_char_failure_label_tolerance (cfg : Config)
    (pyHash : String → Int) (jp rom : SrcFont) (kana rt sfx : String)
    (hne : kana ≠ "") :
    ((make_combined_glyph cfg pyHash jp rom kana rt sfx = none) ↔
      jp.cmapLookup (ordFirst kana) = none) ∧
    (∀ g, make_combined_glyph cfg pyHash jp rom kana rt sfx = some g →
      (g.cmds.filter (fun d => d.font == FontSel.romaji)).length =
        (rt.data.filter (fun c => (rom.cmapLookup c.toNat).isSome)).length ∧
      (¬ kana.length = 1 →
        (g.cmds.filter (fun d => d.font == FontSel.jp)).length =
          (kana.data.filter (fun c => (jp.cmapLookup c.toNat).isSome)).length)) := by
  constructor
  · have hiff := make_isSome_iff cfg pyHash jp rom kana rt sfx
    constructor
    · intro h
      rw [h] at hiff
      exact Option.not_isSome_iff_eq_none.mp (by rw [← hiff]; simp)
    · intro h
      rw [h] at hiff
      exact Option.not_isSome_iff_eq_none.mp (by rw [hiff]; simp)
  · intro g hmk
    have hsome : (jp.cmapLookup (ordFirst kana)).isSome := by
      have h := make_isSome_iff cfg pyHash jp rom kana rt sfx
      rw [hmk] at h
      exact h.symm ▸ rfl
    obtain ⟨src, hc⟩ := Option.isSome_iff_exists.mp hsome
    by_cases hk : kana.length = 1
    · rw [make_eq_single cfg pyHash jp rom kana rt sfx src hk hc] at hmk
      cases hmk
      refine ⟨?_, fun h => absurd hk h⟩
      rw [finishGlyph_cmds, labelCmds_eq,
        cmds_filter_romaji _ _ (by intro d hd; simp at hd; rw [hd])
          (labelRun_fonts cfg rom _ rt.data _),
        labelRun_length]
    · rw [make_eq_multi cfg pyHash jp rom kana rt sfx src hk hc] at hmk
      cases hmk
      constructor
      · rw [finishGlyph_cmds, labelCmds_eq,
          cmds_filter_romaji _ _
            (by
              intro d hd
              rw [baseCmdsMulti_eq] at hd
              exact baseRun_fonts cfg _ _ d hd)
            (labelRun_fonts cfg rom _ rt.data _),
          labelRun_length]
      · intro _
        rw [finishGlyph_cmds, labelCmds_eq,
          cmds_filter_jp _ _
            (by
              intro d hd
              rw [baseCmdsMulti_eq] at hd
              exact baseRun_fonts cfg _ _ d hd)
            (labelRun_fonts cfg rom _ rt.data _),
          baseCmdsMulti_eq, baseRun_length]
        exact kanaWidths_length cfg jp kana.data

theorem C6_counterexample :
    jpPartial.cmapLookup (ordFirst "カ") = none ∧
    ("ッカ".data.filter (fun c => (jpPartial.cmapLookup c.toNat).isNone)) ≠ [] ∧
    (make_combined_glyph cfgW h0 jpPartial romW "ッカ" "KKA" "_sokuon").isSome = true :=
  ⟨by decide, by decide, by decide⟩

theorem C6_first_char_failure_label_tolerance_witness :
    ((make_combined_glyph cfgW hW jpW romW "ッ" "ʔ" "" = none) ↔
      jpW.cmapLookup (ordFirst "ッ") = none) ∧
    (gTSU.cmds.filter (fun d => d.font == FontSel.romaji)).length =
      ("ʔ".data.filter (fun c => (romW.cmapLookup c.toNat).isSome)).length := by
  have h := C6_first_char_failure_label_tolerance cfgW hW jpW romW "ッ" "ʔ" ""
    (by decide)
  exact ⟨h.1, (h.2 gTSU (by decide)).1⟩

/-- C8 (amended): within one process environment the derived glyph name is
a pure function of the key's hash value, its codepoint sequence and its
category suffix — single-character names never consult the hash, and
multi-character names depend on the environment only through the hash of
the key (so across runs they vary with the randomised hash seed). -/
theorem C8_name_pure_function (hash1 hash2 : String → Int) (kana sfx : String)
    (h : kana.length = 1 ∨ hash1 kana = hash2 kana) :
    dstName hash1 kana sfx = dstName hash2 kana sfx := by
  rcases h with h | h
  · simp [dstName, h]
  · by_cases hk : kana.length = 1 <;> simp [dstName, hk, h]

theorem C8_counterexample :
    dstName h0 "キャ" "_youon" ≠ dstName h1 "キャ" "_youon" := by decide

theorem C8_name_pure_function_witness :
    dstName hW "ア" "" = dstName h0 "ア" "" ∧
    dstName hW "キャ" "_youon" = dstName hVar "キャ" "_youon" :=
  ⟨C8_name_pure_function hW h0 "ア" "" (Or.inl (by decide)),
   C8_name_pure_function hW hVar "キャ" "_youon" (Or.inr (by decide))⟩

/-- C3: in the emitted rule set every rule has a 3- or 2-glyph input (so
1-character entries never get a rule), and every 3-glyph rule precedes
every 2-glyph rule, so a first-match consumer tries the longest sequence
first. -/
theorem C3_three_char_rules_first (m : Nat → Option String)
    (y s c : List (String × String)) :
    (∀ r ∈ generate_liga_rules m y s c,
      r.inputs.length = 3 ∨ r.inputs.length = 2) ∧
    (∀ (i j : Nat) (ri rj : LigaRule),
      (generate_liga_rules m y s c).get? i = some ri →
      (generate_liga_rules m y s c).get? j = some rj →
      ri.inputs.length = 3 → rj.inputs.length = 2 → i < j) := by
  have hA : ∀ r ∈ c.filterMap (ruleFor3 m), r.inputs.length = 3 := by
    intro r hr
    obtain ⟨p, _, hp⟩ := List.mem_filterMap.mp hr
    exact ruleFor3_length m p r hp
  have hB : ∀ r ∈ y.filterMap (ruleFor2 m) ++ s.filterMap (ruleFor2 m),
      r.inputs.length = 2 := by
    intro r hr
    rcases List.mem_append.mp hr with h | h
    · obtain ⟨p, _, hp⟩ := List.mem_filterMap.mp h
      exact ruleFor2_length m p r hp
    · obtain ⟨p, _, hp⟩ := List.mem_filterMap.mp h
      exact ruleFor2_length m p r hp
  have hgen : generate_liga_rules m y s c =
      c.filterMap (ruleFor3 m)
        ++ (y.filterMap (ruleFor2 m) ++ s.filterMap (ruleFor2 m)) := by
    unfold generate_liga_rules
    rw [List.append_assoc]
  constructor
  · intro r hr
    rw [hgen] at hr
    rcases List.mem_append.mp hr with h | h
    · exact Or.inl (hA r h)
    · exact Or.inr (hB r h)
  · intro i j ri rj hi hj h3 h2
    rw [hgen] at hi hj
    have hiA : i < (c.filterMap (ruleFor3 m)).length := by
      by_contra hge
      push_neg at hge
      rw [List.get?_append_right hge] at hi
      have hm : ri ∈ y.filterMap (ruleFor2 m) ++ s.filterMap (ruleFor2 m) :=
        List.get?_mem hi
      have := hB ri hm
      omega
    have hjB : ¬ j < (c.filterMap (ruleFor3 m)).length := by
      intro hlt
      rw [List.get?_append hlt] at hj
      have hm : rj ∈ c.filterMap (ruleFor3 m) := List.get?_mem hj
      have := hA rj hm
      omega
    omega

theorem C3_three_char_rules_first_witness :
    (generate_liga_rules mAll yC3 sC3 cC3).get? 0 =
      some ⟨["G", "G", "G"], "C"⟩ ∧ 0 < 1 := by
  refine ⟨by decide, ?_⟩
  exact (C3_three_char_rules_first mAll yC3 sC3 cC3).2 0 1
    ⟨["G", "G", "G"], "C"⟩ ⟨["G", "G"], "Y"⟩ (by decide) (by decide)
    (by decide) (by decide)

theorem fixAscent_eq (ascent styp uwin top : Int) (tops : List Int)
    (hm : tops.max? = some top) :
    fixAscent ascent styp uwin tops =
      if top + 20 > ascent then
        some (ascent + (top + 20 - ascent), styp + (top + 20 - ascent),
          uwin + (top + 20 - ascent))
      else some (ascent, styp, uwin) := by
  unfold fixAscent
  rw [hm]

/-- C9: the vertical-ascent correction is monotone — the corrected ascent
is at least the inherited ascent and at least every contoured glyph's
top extent plus the fixed margin 20, and all three ascent metrics move by
the same amount. -/
theorem C9_ascent_correction_monotone (ascent styp uwin : Int)
    (tops : List Int) (a s w : Int)
    (h : fixAscent ascent styp uwin tops = some (a, s, w)) :
    ascent ≤ a ∧ (∀ t ∈ tops, t + 20 ≤ a) ∧
    s - styp = a - ascent ∧ w - uwin = a - ascent := by
  cases hm : tops.max? with
  | none => unfold fixAscent at h; rw [hm] at h; cases h
  | some top =>
      rw [fixAscent_eq ascent styp uwin top tops hm] at h
      by_cases hneed : top + 20 > ascent
      · rw [if_pos hneed] at h
        simp only [Option.some.injEq, Prod.mk.injEq] at h
        obtain ⟨ha, hs, hw⟩ := h
        refine ⟨by omega, ?_, by omega, by omega⟩
        intro t ht
        have := max?_le_of_mem hm ht
        omega
      · rw [if_neg hneed] at h
        simp only [Option.some.injEq, Prod.mk.injEq] at h
        obtain ⟨ha, hs, hw⟩ := h
        refine ⟨by omega, ?_, by omega, by omega⟩
        intro t ht
        have := max?_le_of_mem hm ht
        omega

theorem C9_ascent_correction_monotone_witness :
    fixAscent 880 720 880 [900] = some (920, 760, 920) ∧ (880 : Int) ≤ 920 :=
  ⟨by decide,
   (C9_ascent_correction_monotone 880 720 880 [900] 920 760 920 (by decide)).1⟩

theorem string_ne_of_data_ne {s t : String} (h : s.data ≠ t.data) : s ≠ t :=
  fun he => h (he ▸ rfl)

theorem list_ne_of_get? {i : Nat} {c1 c2 : Char} {s t : List Char}
    (h1 : s.get? i = some c1) (h2 : t.get? i = some c2) (hne : c1 ≠ c2) :
    s ≠ t := by
  intro he
  rw [he] at h1
  rw [h1] at h2
  exact hne (Option.some.inj h2)

theorem dstName_single_data (hash : String → Int) (kana sfx : String)
    (hk : kana.length = 1) :
    (dstName hash kana sfx).data =
      "kana_".data ++ ((fmt04XNat (ordFirst kana)).data ++ sfx.data) := by
  simp [dstName, hk, String.data_append]

theorem dstName_multi_data (hash : String → Int) (kana sfx : String)
    (hk : ¬ kana.length = 1) :
    (dstName hash kana sfx).data =
      "youon_".data ++ ((fmt04XInt (hash kana)).data ++ sfx.data) := by
  simp [dstName, hk, String.data_append]

theorem dstName_single_ne_multi (hash : String → Int) (k1 k2 sfx1 sfx2 : String)
    (h1 : k1.length = 1) (h2 : ¬ k2.length = 1) :
    dstName hash k1 sfx1 ≠ dstName hash k2 sfx2 := by
  apply string_ne_of_data_ne
  rw [dstName_single_data hash k1 sfx1 h1, dstName_multi_data hash k2 sfx2 h2]
  exact @list_ne_of_get? 0 'k' 'y' _ _
    (by rw [List.get?_append (by decide)]; decide)
    (by rw [List.get?_append (by decide)]; decide) (by decide)

theorem notdef_ne_dstName (hash : String → Int) (kana sfx : String) :
    (".notdef" : String) ≠ dstName hash kana sfx := by
  by_cases hk : kana.length = 1
  · apply string_ne_of_data_ne
    rw [dstName_single_data hash kana sfx hk]
    exact @list_ne_of_get? 0 '.' 'k' _ _ (by decide)
      (by rw [List.get?_append (by decide)]; decide) (by decide)
  · apply string_ne_of_data_ne
    rw [dstName_multi_data hash kana sfx hk]
    exact @list_ne_of_get? 0 '.' 'y' _ _ (by decide)
      (by rw [List.get?_append (by decide)]; decide) (by decide)

theorem dstName_multi_inj_fmt (hash : String → Int) (k1 k2 sfx : String)
    (h1 : ¬ k1.length = 1) (h2 : ¬ k2.length = 1)
    (he : dstName hash k1 sfx = dstName hash k2 sfx) :
    fmt04XInt (hash k1) = fmt04XInt (hash k2) := by
  have hd := congrArg String.data he
  rw [dstName_multi_data hash k1 sfx h1, dstName_multi_data hash k2 sfx h2] at hd
  exact String.ext (List.append_cancel_right (List.append_cancel_left hd))

theorem dstName_multi_ne_cross (hash : String → Int) (k1 k2 sfx1 sfx2 : String)
    (h1 : ¬ k1.length = 1) (h2 : ¬ k2.length = 1) (i : Nat) (c1 c2 : Char)
    (hg1 : sfx1.data.reverse.get? i = some c1)
    (hg2 : sfx2.data.reverse.get? i = some c2) (hne : c1 ≠ c2) :
    dstName hash k1 sfx1 ≠ dstName hash k2 sfx2 := by
  intro he
  have hd := congrArg String.data he
  rw [dstName_multi_data hash k1 sfx1 h1, dstName_multi_data hash k2 sfx2 h2] at hd
  have h3 := List.append_cancel_left hd
  have h4 := congrArg List.reverse h3
  rw [List.reverse_append, List.reverse_append] at h4
  obtain ⟨hi1, _⟩ := List.get?_eq_some.mp hg1
  have e1 : ((sfx1.data.reverse ++ (fmt04XInt (hash k1)).data.reverse).get? i) =
      some c1 := by rw [List.get?_append hi1]; exact hg1
  obtain ⟨hi2, _⟩ := List.get?_eq_some.mp hg2
  have e2 : ((sfx2.data.reverse ++ (fmt04XInt (hash k2)).data.reverse).get? i) =
      some c2 := by rw [List.get?_append hi2]; exact hg2
  rw [h4] at e1
  exact hne (Option.some.inj (e1.symm.trans e2))

theorem inj_of_map_nodup {α β : Type} (f : α → β) :
    ∀ (l : List α), (l.map f).Nodup →
      ∀ a ∈ l, ∀ b ∈ l, f a = f b → a = b := by
  intro l
  induction l with
  | nil => intro _ a ha; simp at ha
  | cons x rest ih =>
      intro hnd a ha b hb hf
      rw [List.map_cons, List.nodup_cons] at hnd
      rcases List.mem_cons.mp ha with ha1 | ha1
      · rcases List.mem_cons.mp hb with hb1 | hb1
        · rw [ha1, hb1]
        · exfalso
          apply hnd.1
          have hmem : f b ∈ List.map f rest := List.mem_map_of_mem f hb1
          rw [ha1] at hf
          rw [← hf] at hmem
          exact hmem
      · rcases List.mem_cons.mp hb with hb1 | hb1
        · exfalso
          apply hnd.1
          have hmem : f a ∈ List.map f rest := List.mem_map_of_mem f ha1
          rw [hb1] at hf
          rw [hf] at hmem
          exact hmem
        · exact ih hnd.2 a ha1 b hb1 hf

theorem group_names_nodup (hash : String → Int) (cat : List (String × String))
    (sfx : String)
    (hlen : ∀ p ∈ cat, ¬ p.1.length = 1)
    (hkeys : (cat.map Prod.fst).Nodup)
    (hfmt : (cat.map (fun p => fmt04XInt (hash p.1))).Nodup) :
    (cat.map (fun p => dstName hash p.1 sfx)).Nodup := by
  have hmap : cat.map (fun p => dstName hash p.1 sfx) =
      (cat.map Prod.fst).map (fun k => dstName hash k sfx) := by
    rw [List.map_map]
    rfl
  have hfmt' : ((cat.map Prod.fst).map (fun k => fmt04XInt (hash k))).Nodup := by
    rw [List.map_map]
    exact hfmt
  have hlen' : ∀ k ∈ cat.map Prod.fst, ¬ k.length = 1 := by
    intro k hk
    obtain ⟨p, hp, hpk⟩ := List.mem_map.mp hk
    exact hpk ▸ hlen p hp
  rw [hmap]
  apply List.Nodup.map_on ?_ hkeys
  intro x hx y hy hf
  exact inj_of_map_nodup (fun k => fmt04XInt (hash k)) (cat.map Prod.fst) hfmt'
    x hx y hy
    (dstName_multi_inj_fmt hash x y sfx (hlen' x hx) (hlen' y hy) hf)

/-- C2 (amended): derived glyph names never collide across the whole
output set — including `.notdef` and for every processing prefix —
*provided* the formatted hash values are pairwise distinct within each
multi-character group; single-character names are collision-free
unconditionally, and names from different groups can never collide
(distinct `kana_`/`youon_` prefixes and distinct category suffixes). -/
theorem C2_names_nodup (hash : String → Int)
    (HY : (YOUON_COMBINATIONS.map (fun p => fmt04XInt (hash p.1))).Nodup)
    (HS : (SOKUON_COMBINATIONS.map (fun p => fmt04XInt (hash p.1))).Nodup)
    (HC : (COMPLEX_COMBINATIONS.map (fun p => fmt04XInt (hash p.1))).Nodup) :
    ∀ n, ((allGlyphNames hash).take n).Nodup := by
  have hR1 : ∀ p ∈ ROMAJI, p.1.length = 1 := by decide
  have hY2 : ∀ p ∈ YOUON_COMBINATIONS, ¬ p.1.length = 1 := by decide
  have hS2 : ∀ p ∈ SOKUON_COMBINATIONS, ¬ p.1.length = 1 := by decide
  have hC2 : ∀ p ∈ COMPLEX_COMBINATIONS, ¬ p.1.length = 1 := by decide
  have hRnodup : (ROMAJI.map (fun p => dstName hash p.1 "")).Nodup := by
    have hcongr : ROMAJI.map (fun p => dstName hash p.1 "") =
        ROMAJI.map (fun p => dstName h0 p.1 "") :=
      List.map_congr_left (fun p hp => by simp [dstName, hR1 p hp])
    rw [hcongr]
    decide
  have hYnodup := group_names_nodup hash YOUON_COMBINATIONS "_youon" hY2
    (by decide) HY
  have hSnodup := group_names_nodup hash SOKUON_COMBINATIONS "_sokuon" hS2
    (by decide) HS
  have hCnodup := group_names_nodup hash COMPLEX_COMBINATIONS "_complex" hC2
    (by decide) HC
  have hfull : (allGlyphNames hash).Nodup := by
    unfold allGlyphNames
    rw [List.nodup_cons]
    constructor
    · intro hmem
      simp only [List.mem_append, List.mem_map] at hmem
      rcases hmem with ((⟨p, hp, hpe⟩ | ⟨p, hp, hpe⟩) | ⟨p, hp, hpe⟩) | ⟨p, hp, hpe⟩ <;>
        exact notdef_ne_dstName hash p.1 _ hpe.symm
    · rw [List.nodup_append, List.nodup_append, List.nodup_append]
      refine ⟨⟨⟨hRnodup, hYnodup, ?_⟩, hSnodup, ?_⟩, hCnodup, ?_⟩
      · intro a haR haY
        obtain ⟨p, hp, hpe⟩ := List.mem_map.mp haR
        obtain ⟨q, hq, hqe⟩ := List.mem_map.mp haY
        exact dstName_single_ne_multi hash p.1 q.1 "" "_youon"
          (hR1 p hp) (hY2 q hq) (hpe.trans hqe.symm)
      · intro a haRY haS
        obtain ⟨q, hq, hqe⟩ := List.mem_map.mp haS
        rcases List.mem_append.mp haRY with haR | haY
        · obtain ⟨p, hp, hpe⟩ := List.mem_map.mp haR
          exact dstName_single_ne_multi hash p.1 q.1 "" "_sokuon"
            (hR1 p hp) (hS2 q hq) (hpe.trans hqe.symm)
        · obtain ⟨p, hp, hpe⟩ := List.mem_map.mp haY
          exact dstName_multi_ne_cross hash p.1 q.1 "_youon" "_sokuon"
            (hY2 p hp) (hS2 q hq) 3 'o' 'k' (by decide) (by decide) (by decide)
            (hpe.trans hqe.symm)
      · intro a haRYS haC
        obtain ⟨q, hq, hqe⟩ := List.mem_map.mp haC
        rcases List.mem_append.mp haRYS with haRY | haS
        · rcases List.mem_append.mp haRY with haR | haY
          · obtain ⟨p, hp, hpe⟩ := List.mem_map.mp haR
            exact dstName_single_ne_multi hash p.1 q.1 "" "_complex"
              (hR1 p hp) (hC2 q hq) (hpe.trans hqe.symm)
          · obtain ⟨p, hp, hpe⟩ := List.mem_map.mp haY
            exact dstName_multi_ne_cross hash p.1 q.1 "_youon" "_complex"
              (hY2 p hp) (hC2 q hq) 0 'n' 'x' (by decide) (by decide) (by decide)
              (hpe.trans hqe.symm)
        · obtain ⟨p, hp, hpe⟩ := List.mem_map.mp haS
          exact dstName_multi_ne_cross hash p.1 q.1 "_sokuon" "_complex"
            (hS2 p hp) (hC2 q hq) 0 'n' 'x' (by decide) (by decide) (by decide)
            (hpe.trans hqe.symm)
  intro n
  exact hfull.sublist (List.take_sublist n _)

theorem C2_counterexample : ¬ (allGlyphNames h0).Nodup := by
  intro hnd
  have h1 : List.count "youon_0000_youon" (allGlyphNames h0) ≤ 1 :=
    List.nodup_iff_count_le_one.mp hnd _
  have h2 : 2 ≤ List.count "youon_0000_youon" (allGlyphNames h0) := by decide
  omega

theorem C2_names_nodup_witness : ((allGlyphNames hW).take 251).Nodup :=
  C2_names_nodup hW (by decide) (by decide) (by decide) 251

theorem getD_of_isSome {α : Type} (o : Option α) (d : α) (h : o.isSome) :
    o = some (o.getD d) := by
  cases o with
  | none => cases h
  | some a => rfl

theorem lookupA_isSome_iff {κ α : Type} [DecidableEq κ] :
    ∀ (d : List (κ × α)) (k : κ),
      (lookupA d k).isSome ↔ k ∈ d.map Prod.fst := by
  intro d
  induction d with
  | nil => intro k; simp [lookupA]
  | cons p rest ih =>
      intro k
      by_cases hk : k = p.1 <;> simp [lookupA, hk, ih]

theorem keys_dictInsert {κ α : Type} [DecidableEq κ]
    (d : List (κ × α)) (k : κ) (v : α) :
    (dictInsert d k v).map Prod.fst =
      if d.any (fun p => p.1 = k) then d.map Prod.fst
      else d.map Prod.fst ++ [k] := by
  unfold dictInsert
  split
  · rw [List.map_map]
    exact List.map_congr_left (fun p _ => by
      by_cases hp : p.1 = k <;> simp [hp])
  · simp

theorem mem_keys_dictInsert {κ α : Type} [DecidableEq κ]
    (d : List (κ × α)) (k : κ) (v : α) (x : κ) :
    x ∈ (dictInsert d k v).map Prod.fst ↔ x = k ∨ x ∈ d.map Prod.fst := by
  rw [keys_dictInsert]
  split
  · rename_i hany
    simp only [List.any_eq_true, decide_eq_true_eq] at hany
    obtain ⟨p, hp, hpk⟩ := hany
    constructor
    · intro h; exact Or.inr h
    · rintro (h | h)
      · rw [h, ← hpk]; exact List.mem_map_of_mem Prod.fst hp
      · exact h
  · rw [List.mem_append]
    constructor
    · rintro (h | h)
      · exact Or.inr h
      · simp at h; exact Or.inl h
    · rintro (h | h)
      · exact Or.inr (by simp [h])
      · exact Or.inl h

theorem keys_cmapMapOf_aux :
    ∀ (assoc : List (String × String)) (d : List (Nat × String)) (x : Nat),
      (x ∈ (assoc.foldl (fun d p => dictInsert d (ordFirst p.1) p.2) d).map
        Prod.fst) ↔
      x ∈ d.map Prod.fst ∨ x ∈ assoc.map (fun p => ordFirst p.1) := by
  intro assoc
  induction assoc with
  | nil => intro d x; simp
  | cons q rest ih =>
      intro d x
      rw [List.foldl_cons, ih, mem_keys_dictInsert]
      simp only [List.map_cons, List.mem_cons]
      tauto

theorem keys_cmapMapOf (assoc : List (String × String)) (x : Nat) :
    x ∈ (cmapMapOf assoc).map Prod.fst ↔
      x ∈ assoc.map (fun p => ordFirst p.1) := by
  unfold cmapMapOf
  rw [keys_cmapMapOf_aux]
  simp

theorem lookup_prune_isSome (cm : List (Nat × String)) :
    ∀ (l : List (Nat × String)) (cp : Nat),
      (lookupA (l.filterMap (fun p =>
        (lookupA cm p.1).map (fun g => (p.1, g)))) cp).isSome ↔
      ((lookupA l cp).isSome ∧ (lookupA cm cp).isSome) := by
  intro l
  induction l with
  | nil => intro cp; simp [lookupA]
  | cons q rest ih =>
      intro cp
      by_cases hcp : cp = q.1
      · cases hq : lookupA cm q.1 with
        | some g =>
            simp [hq, lookupA, hcp]
        | none =>
            simp only [List.filterMap_cons, hq, Option.map_none']
            rw [ih cp]
            simp [lookupA, hcp, hq]
      · cases hq : lookupA cm q.1 with
        | some g =>
            simp only [List.filterMap_cons, hq, Option.map_some']
            simp [lookupA, hcp, ih cp]
        | none =>
            simp only [List.filterMap_cons, hq, Option.map_none']
            simp [lookupA, hcp, ih cp]

theorem prunedCmap_lookup_isSome (jp : SrcFont) (cm : List (Nat × String))
    (cp : Nat) :
    (lookupA (prunedCmap jp cm) cp).isSome ↔
      ((jp.cmapLookup cp).isSome ∧ (lookupA cm cp).isSome) := by
  unfold prunedCmap SrcFont.cmapLookup
  exact lookup_prune_isSome cm jp.cmapList cp

theorem processGroup_some_inv (cfg : Config) (pyHash : String → Int)
    (jp rom : SrcFont) (sfx : String) :
    ∀ (cat : List (String × String)) (tbl tbl' : List (String × GlyphResult))
      (assoc : List (String × String)),
      processGroup cfg pyHash jp rom sfx cat tbl = some (tbl', assoc) →
      assoc = cat.map (fun p => (p.1, dstName pyHash p.1 sfx)) ∧
      (∀ x ∈ tbl.map Prod.fst, x ∈ tbl'.map Prod.fst) ∧
      (∀ p ∈ cat, dstName pyHash p.1 sfx ∈ tbl'.map Prod.fst) ∧
      (∀ p ∈ cat, (jp.cmapLookup (ordFirst p.1)).isSome) := by
  intro cat
  induction cat with
  | nil =>
      intro tbl tbl' assoc h
      unfold processGroup at h
      cases h
      exact ⟨rfl, fun x hx => hx, by simp, by simp⟩
  | cons q rest ih =>
      intro tbl tbl' assoc h
      unfold processGroup at h
      cases hm : make_combined_glyph cfg pyHash jp rom q.1 q.2 sfx with
      | none => simp [hm] at h
      | some g =>
          cases hs : processGroup cfg pyHash jp rom sfx rest
              (dictInsert tbl g.name g) with
          | none => simp [hm, hs] at h
          | some r =>
              cases r with
              | mk tbl2 assoc2 =>
                  simp only [hm, hs, Option.some.injEq, Prod.mk.injEq] at h
                  obtain ⟨htbl, hassoc⟩ := h
                  subst htbl
                  subst hassoc
                  obtain ⟨ha, hpres, hmem, hmap⟩ := ih _ _ _ hs
                  have hname := make_name cfg pyHash jp rom q.1 q.2 sfx g hm
                  refine ⟨?_, ?_, ?_, ?_⟩
                  · rw [ha, hname, List.map_cons]
                  · intro x hx
                    exact hpres x ((mem_keys_dictInsert tbl g.name g x).mpr
                      (Or.inr hx))
                  · intro p hp
                    rcases List.mem_cons.mp hp with hp1 | hp1
                    · rw [hp1]
                      exact hpres (dstName pyHash q.1 sfx)
                        ((mem_keys_dictInsert tbl g.name g _).mpr
                          (Or.inl hname.symm))
                    · exact hmem p hp1
                  · intro p hp
                    rcases List.mem_cons.mp hp with hp1 | hp1
                    · rw [hp1]
                      have hiff := make_isSome_iff cfg pyHash jp rom q.1 q.2 sfx
                      rw [hm] at hiff
                      exact hiff.symm ▸ rfl
                    · exact hmap p hp1

theorem processGroup_isSome (cfg : Config) (pyHash : String → Int)
    (jp rom : SrcFont) (sfx : String) :
    ∀ (cat : List (String × String)),
      (∀ p ∈ cat, (jp.cmapLookup (ordFirst p.1)).isSome) →
      ∀ (tbl : List (String × GlyphResult)),
        (processGroup cfg pyHash jp rom sfx cat tbl).isSome := by
  intro cat
  induction cat with
  | nil => intro _ tbl; rw [processGroup]; rfl
  | cons q rest ih =>
      intro h tbl
      have hq : (jp.cmapLookup (ordFirst q.1)).isSome :=
        h q (List.mem_cons_self q rest)
      have hmk : (make_combined_glyph cfg pyHash jp rom q.1 q.2 sfx).isSome := by
        rw [make_isSome_iff]
        exact hq
      obtain ⟨g, hg⟩ := Option.isSome_iff_exists.mp hmk
      have hrest := ih (fun p hp => h p (List.mem_cons_of_mem q hp))
        (dictInsert tbl g.name g)
      obtain ⟨r, hr⟩ := Option.isSome_iff_exists.mp hrest
      cases r with
      | mk a b => simp [processGroup, hg, hr]

theorem build_font_some_inv (env : BuildEnv) (out : FontOut)
    (hout : build_font env = some out) :
    (∀ p ∈ ROMAJI, (env.jp.cmapLookup (ordFirst p.1)).isSome) ∧
    out.liga = (if env.addFeaturesOk then some (rulesOf env.pyHash) else none) ∧
    out.cmap = prunedCmap env.jp (cmapMapW env.pyHash) ∧
    (".notdef" ∈ out.glyphOrder ∧
      (∀ p ∈ ROMAJI, dstName env.pyHash p.1 "" ∈ out.glyphOrder) ∧
      (∀ p ∈ YOUON_COMBINATIONS,
        dstName env.pyHash p.1 "_youon" ∈ out.glyphOrder) ∧
      (∀ p ∈ SOKUON_COMBINATIONS,
        dstName env.pyHash p.1 "_sokuon" ∈ out.glyphOrder) ∧
      (∀ p ∈ COMPLEX_COMBINATIONS,
        dstName env.pyHash p.1 "_complex" ∈ out.glyphOrder)) := by
  unfold build_font at hout
  obtain ⟨⟨tbl1, a1⟩, h1, hout⟩ := Option.bind_eq_some.mp hout
  obtain ⟨⟨tbl2, a2⟩, h2, hout⟩ := Option.bind_eq_some.mp hout
  obtain ⟨⟨tbl3, a3⟩, h3, hout⟩ := Option.bind_eq_some.mp hout
  obtain ⟨⟨tbl4, a4⟩, h4, hout⟩ := Option.bind_eq_some.mp hout
  obtain ⟨fixed, hfix, hout⟩ := Option.bind_eq_some.mp hout
  obtain ⟨ha1, hp1, hm1, hmap1⟩ :=
    processGroup_some_inv env.cfg env.pyHash env.jp env.romaji "" ROMAJI
      _ _ _ h1
  obtain ⟨ha2, hp2, hm2, _⟩ :=
    processGroup_some_inv env.cfg env.pyHash env.jp env.romaji "_youon"
      YOUON_COMBINATIONS _ _ _ h2
  obtain ⟨ha3, hp3, hm3, _⟩ :=
    processGroup_some_inv env.cfg env.pyHash env.jp env.romaji "_sokuon"
      SOKUON_COMBINATIONS _ _ _ h3
  obtain ⟨ha4, hp4, hm4, _⟩ :=
    processGroup_some_inv env.cfg env.pyHash env.jp env.romaji "_complex"
      COMPLEX_COMBINATIONS _ _ _ h4
  subst ha1
  subst ha2
  subst ha3
  subst ha4
  cases hout
  refine ⟨hmap1, rfl, rfl, ?_, ?_, ?_, ?_, ?_⟩
  · have h0 : ".notdef" ∈
        ([((".notdef" : String), notdefGlyph env.jp)].map Prod.fst) := by simp
    exact hp4 _ (hp3 _ (hp2 _ (hp1 _ h0)))
  · intro p hp
    exact hp4 _ (hp3 _ (hp2 _ (hm1 p hp)))
  · intro p hp
    exact hp4 _ (hp3 _ (hm2 p hp))
  · intro p hp
    exact hp4 _ (hm3 p hp)
  · intro p hp
    exact hm4 p hp


theorem build_font_isSome (env : BuildEnv)
    (HR : ∀ p ∈ ROMAJI, (env.jp.cmapLookup (ordFirst p.1)).isSome)
    (HY : ∀ p ∈ YOUON_COMBINATIONS, (env.jp.cmapLookup (ordFirst p.1)).isSome)
    (HS : ∀ p ∈ SOKUON_COMBINATIONS, (env.jp.cmapLookup (ordFirst p.1)).isSome)
    (HC : ∀ p ∈ COMPLEX_COMBINATIONS, (env.jp.cmapLookup (ordFirst p.1)).isSome)
    (H2 : (env.yMaxOut ".notdef").isSome) :
    (build_font env).isSome := by
  obtain ⟨⟨tbl1, a1⟩, h1⟩ := Option.isSome_iff_exists.mp
    (processGroup_isSome env.cfg env.pyHash env.jp env.romaji "" ROMAJI HR
      [(".notdef", notdefGlyph env.jp)])
  obtain ⟨⟨tbl2, a2⟩, h2⟩ := Option.isSome_iff_exists.mp
    (processGroup_isSome env.cfg env.pyHash env.jp env.romaji "_youon"
      YOUON_COMBINATIONS HY tbl1)
  obtain ⟨⟨tbl3, a3⟩, h3⟩ := Option.isSome_iff_exists.mp
    (processGroup_isSome env.cfg env.pyHash env.jp env.romaji "_sokuon"
      SOKUON_COMBINATIONS HS tbl2)
  obtain ⟨⟨tbl4, a4⟩, h4⟩ := Option.isSome_iff_exists.mp
    (processGroup_isSome env.cfg env.pyHash env.jp env.romaji "_complex"
      COMPLEX_COMBINATIONS HC tbl3)
  have hnotdef : ".notdef" ∈ tbl4.map Prod.fst := by
    obtain ⟨_, hp1, _, _⟩ :=
      processGroup_some_inv env.cfg env.pyHash env.jp env.romaji "" ROMAJI
        _ _ _ h1
    obtain ⟨_, hp2, _, _⟩ :=
      processGroup_some_inv env.cfg env.pyHash env.jp env.romaji "_youon"
        YOUON_COMBINATIONS _ _ _ h2
    obtain ⟨_, hp3, _, _⟩ :=
      processGroup_some_inv env.cfg env.pyHash env.jp env.romaji "_sokuon"
        SOKUON_COMBINATIONS _ _ _ h3
    obtain ⟨_, hp4, _, _⟩ :=
      processGroup_some_inv env.cfg env.pyHash env.jp env.romaji "_complex"
        COMPLEX_COMBINATIONS _ _ _ h4
    exact hp4 _ (hp3 _ (hp2 _ (hp1 _ (by simp))))
  obtain ⟨t0, ht0⟩ := Option.isSome_iff_exists.mp H2
  have htops : t0 ∈ (tbl4.map Prod.fst).filterMap env.yMaxOut :=
    List.mem_filterMap.mpr ⟨".notdef", hnotdef, ht0⟩
  have hne : (tbl4.map Prod.fst).filterMap env.yMaxOut ≠ [] :=
    List.ne_nil_of_mem htops
  have hmax : ((tbl4.map Prod.fst).filterMap env.yMaxOut).max?.isSome := by
    cases hm : ((tbl4.map Prod.fst).filterMap env.yMaxOut).max? with
    | none => exact absurd (List.max?_eq_none_iff.mp hm) hne
    | some v => rfl
  obtain ⟨top, htop⟩ := Option.isSome_iff_exists.mp hmax
  have hfix : (fixAscent env.jpAscent env.jpTypoAscender env.jpWinAscent
      ((tbl4.map Prod.fst).filterMap env.yMaxOut)).isSome := by
    rw [fixAscent_eq env.jpAscent env.jpTypoAscender env.jpWinAscent top _ htop]
    by_cases hneed : top + 20 > env.jpAscent
    · rw [if_pos hneed]; rfl
    · rw [if_neg hneed]; rfl
  obtain ⟨fixed, hfixed⟩ := Option.isSome_iff_exists.mp hfix
  have hfixed2 : fixAscent env.jpAscent env.jpTypoAscender env.jpWinAscent
      (List.filterMap (env.yMaxOut ∘ fun p => p.1) tbl4) = some fixed := by
    rw [← List.filterMap_map]
    exact hfixed
  unfold build_font
  simp [h1, h2, h3, h4, hfixed2]

theorem processGroup_none_of_missing (cfg : Config) (pyHash : String → Int)
    (jp rom : SrcFont) (sfx : String) :
    ∀ (cat : List (String × String)) (tbl : List (String × GlyphResult)),
      (∃ p ∈ cat, jp.cmapLookup (ordFirst p.1) = none) →
      processGroup cfg pyHash jp rom sfx cat tbl = none := by
  intro cat
  induction cat with
  | nil => intro tbl h; simp at h
  | cons q rest ih =>
      intro tbl h
      cases hm : make_combined_glyph cfg pyHash jp rom q.1 q.2 sfx with
      | none => simp [processGroup, hm]
      | some g =>
          obtain ⟨p, hp, hpn⟩ := h
          rcases List.mem_cons.mp hp with hp1 | hp1
          · exfalso
            have hiff := make_isSome_iff cfg pyHash jp rom q.1 q.2 sfx
            rw [hm, ← hp1, hpn] at hiff
            simp at hiff
          · have hrest := ih (dictInsert tbl g.name g) ⟨p, hp1, hpn⟩
            simp [processGroup, hm, hrest]

theorem ruleFor3_isSome_iff (m : Nat → Option String) (p : String × String) :
    (ruleFor3 m p).isSome ↔
      ((m (cpAt p.1 0)).isSome ∧ (m (cpAt p.1 1)).isSome ∧
        (m (cpAt p.1 2)).isSome) := by
  unfold ruleFor3
  cases m (cpAt p.1 0) <;> cases m (cpAt p.1 1) <;> cases m (cpAt p.1 2) <;> simp

theorem ruleFor2_isSome_iff (m : Nat → Option String) (p : String × String) :
    (ruleFor2 m p).isSome ↔
      ((m (cpAt p.1 0)).isSome ∧ (m (cpAt p.1 1)).isSome) := by
  unfold ruleFor2
  cases m (cpAt p.1 0) <;> cases m (cpAt p.1 1) <;> simp

/-- C7 (amended): every stage failure aborts the whole build — a missing
single-character base glyph or an empty contoured-glyph set yields no
output at all — EXCEPT the OpenType feature-addition stage (lines
390–398): its failure is caught, and the build still produces an output
font, merely without the `liga` rules it would otherwise carry. -/
theorem C7_all_stages_abort_except_features :
    (∀ (env : BuildEnv) (out : FontOut), build_font env = some out →
      env.addFeaturesOk = false → out.liga = none) ∧
    (∀ (env : BuildEnv) (out : FontOut), build_font env = some out →
      env.addFeaturesOk = true → out.liga = some (rulesOf env.pyHash)) ∧
    (∀ env : BuildEnv,
      (∃ p ∈ ROMAJI, env.jp.cmapLookup (ordFirst p.1) = none) →
      build_font env = none) ∧
    (∀ env : BuildEnv, (∀ gn : String, env.yMaxOut gn = none) →
      build_font env = none) := by
  refine ⟨?_, ?_, ?_, ?_⟩
  · intro env out hout hflag
    have hinv := build_font_some_inv env out hout
    rw [hinv.2.1, hflag]
    rfl
  · intro env out hout hflag
    have hinv := build_font_some_inv env out hout
    rw [hinv.2.1, hflag]
    rfl
  · intro env h
    have h1 := processGroup_none_of_missing env.cfg env.pyHash env.jp
      env.romaji "" ROMAJI [(".notdef", notdefGlyph env.jp)] h
    unfold build_font
    simp [h1]
  · intro env h
    unfold build_font
    cases hq1 : processGroup env.cfg env.pyHash env.jp env.romaji "" ROMAJI
        [(".notdef", notdefGlyph env.jp)] with
    | none => simp [hq1]
    | some r1 =>
        cases r1 with
        | mk tbl1 a1 =>
          cases hq2 : processGroup env.cfg env.pyHash env.jp env.romaji
              "_youon" YOUON_COMBINATIONS tbl1 with
          | none => simp [hq1, hq2]
          | some r2 =>
              cases r2 with
              | mk tbl2 a2 =>
                cases hq3 : processGroup env.cfg env.pyHash env.jp env.romaji
                    "_sokuon" SOKUON_COMBINATIONS tbl2 with
                | none => simp [hq1, hq2, hq3]
                | some r3 =>
                    cases r3 with
                    | mk tbl3 a3 =>
                      cases hq4 : processGroup env.cfg env.pyHash env.jp
                          env.romaji "_complex" COMPLEX_COMBINATIONS tbl3 with
                      | none => simp [hq1, hq2, hq3, hq4]
                      | some r4 =>
                          cases r4 with
                          | mk tbl4 a4 =>
                            have htops : List.filterMap
                                (env.yMaxOut ∘ fun p => p.1) tbl4 = [] := by
                              rw [List.filterMap_eq_nil]
                              intro a _
                              exact h _
                            have hfa : fixAscent env.jpAscent
                                env.jpTypoAscender env.jpWinAscent
                                (List.filterMap (env.yMaxOut ∘ fun p => p.1)
                                  tbl4) = none := by
                              rw [htops]
                              rfl
                            simp [hq1, hq2, hq3, hq4, hfa]

theorem C7_counterexample :
    (build_font envNoLiga).map FontOut.liga = some none ∧
    (build_font envW).map FontOut.liga = some (some (rulesOf hW)) := by
  constructor
  · obtain ⟨out, hout⟩ := Option.isSome_iff_exists.mp
      (build_font_isSome envNoLiga (by decide) (by decide) (by decide)
        (by decide) (by decide))
    have hinv := build_font_some_inv envNoLiga out hout
    rw [hout, Option.map_some', hinv.2.1]
    rfl
  · obtain ⟨out, hout⟩ := Option.isSome_iff_exists.mp
      (build_font_isSome envW (by decide) (by decide) (by decide)
        (by decide) (by decide))
    have hinv := build_font_some_inv envW out hout
    rw [hout, Option.map_some', hinv.2.1]
    rfl

theorem C7_all_stages_abort_except_features_witness :
    outNL.liga = none ∧ build_font envBad = none := by
  constructor
  · have hNL : build_font envNoLiga = some outNL :=
      getD_of_isSome (build_font envNoLiga) defaultFontOut
        (build_font_isSome envNoLiga (by decide) (by decide) (by decide)
          (by decide) (by decide))
    exact C7_all_stages_abort_except_features.1 envNoLiga outNL hNL rfl
  · exact C7_all_stages_abort_except_features.2.2.1 envBad
      ⟨("ァ", "A"), by decide, by decide⟩

/-- C4: a ligature rule for a multi-character catalog entry is emitted
exactly when every codepoint of its input sequence is present in the
final pruned character map; an unmappable rule is silently dropped — the
build has still succeeded — and the entry's composite glyph is
nonetheless present in the glyph table.  The last conjunct shows every
emitted rule arises from some entry that passed the filter. -/
theorem C4_rule_iff_final_cmap (env : BuildEnv) (out : FontOut)
    (rules : List LigaRule) (hout : build_font env = some out)
    (hliga : out.liga = some rules) :
    rules = rulesOf env.pyHash ∧
    (∀ p ∈ complexAssocOf env.pyHash,
      (((ruleFor3 (lookupA (cmapMapW env.pyHash)) p).isSome ↔
         ∀ c ∈ p.1.data, (lookupA out.cmap c.toNat).isSome) ∧
       (∀ r, ruleFor3 (lookupA (cmapMapW env.pyHash)) p = some r →
         r ∈ rules) ∧
       p.2 ∈ out.glyphOrder)) ∧
    (∀ p ∈ youonAssocOf env.pyHash,
      (((ruleFor2 (lookupA (cmapMapW env.pyHash)) p).isSome ↔
         ∀ c ∈ p.1.data, (lookupA out.cmap c.toNat).isSome) ∧
       (∀ r, ruleFor2 (lookupA (cmapMapW env.pyHash)) p = some r →
         r ∈ rules) ∧
       p.2 ∈ out.glyphOrder)) ∧
    (∀ p ∈ sokuonAssocOf env.pyHash,
      (((ruleFor2 (lookupA (cmapMapW env.pyHash)) p).isSome ↔
         ∀ c ∈ p.1.data, (lookupA out.cmap c.toNat).isSome) ∧
       (∀ r, ruleFor2 (lookupA (cmapMapW env.pyHash)) p = some r →
         r ∈ rules) ∧
       p.2 ∈ out.glyphOrder)) ∧
    (∀ r ∈ rules,
      (∃ p ∈ complexAssocOf env.pyHash,
        ruleFor3 (lookupA (cmapMapW env.pyHash)) p = some r) ∨
      (∃ p ∈ youonAssocOf env.pyHash,
        ruleFor2 (lookupA (cmapMapW env.pyHash)) p = some r) ∨
      (∃ p ∈ sokuonAssocOf env.pyHash,
        ruleFor2 (lookupA (cmapMapW env.pyHash)) p = some r)) := by
  have hinv := build_font_some_inv env out hout
  have hrules : rules = rulesOf env.pyHash := by
    cases hflag : env.addFeaturesOk with
    | false => rw [hinv.2.1, hflag] at hliga; simp at hliga
    | true =>
        rw [hinv.2.1, hflag] at hliga
        exact (Option.some.inj (by simpa using hliga)).symm
  have hcp : ∀ cp : Nat, (lookupA out.cmap cp).isSome ↔
      (lookupA (cmapMapW env.pyHash) cp).isSome := by
    intro cp
    rw [hinv.2.2.1, prunedCmap_lookup_isSome]
    constructor
    · rintro ⟨_, h⟩; exact h
    · intro h
      refine ⟨?_, h⟩
      rw [lookupA_isSome_iff] at h
      unfold cmapMapW at h
      rw [keys_cmapMapOf] at h
      obtain ⟨q, hq, hqe⟩ := List.mem_map.mp h
      obtain ⟨p0, hp0, hp0e⟩ := List.mem_map.mp hq
      have hjp := hinv.1 p0 hp0
      have : ordFirst p0.1 = cp := by rw [← hqe, ← hp0e]
      rw [← this]
      exact hjp
  have hrulesmem : ∀ r, r ∈ rulesOf env.pyHash ↔
      (r ∈ (complexAssocOf env.pyHash).filterMap
          (ruleFor3 (lookupA (cmapMapW env.pyHash))) ∨
       r ∈ (youonAssocOf env.pyHash).filterMap
          (ruleFor2 (lookupA (cmapMapW env.pyHash))) ∨
       r ∈ (sokuonAssocOf env.pyHash).filterMap
          (ruleFor2 (lookupA (cmapMapW env.pyHash)))) := by
    intro r
    unfold rulesOf generate_liga_rules
    simp [List.mem_append, or_assoc]
  have hlen3 : ∀ q ∈ COMPLEX_COMBINATIONS, q.1.data.length = 3 := by decide
  have hlen2y : ∀ q ∈ YOUON_COMBINATIONS, q.1.data.length = 2 := by decide
  have hlen2s : ∀ q ∈ SOKUON_COMBINATIONS, q.1.data.length = 2 := by decide
  refine ⟨hrules, ?_, ?_, ?_, ?_⟩
  · intro p hp
    obtain ⟨q, hq, hqe⟩ := List.mem_map.mp hp
    have hlen : q.1.data.length = 3 := hlen3 q hq
    obtain ⟨c0, c1, c2, hdata⟩ := List.length_eq_three.mp hlen
    refine ⟨?_, ?_, ?_⟩
    · rw [ruleFor3_isSome_iff]
      have hp1 : p.1 = q.1 := by rw [← hqe]
      rw [hp1, hdata]
      simp only [cpAt, hdata, List.mem_cons, List.not_mem_nil, or_false]
      constructor
      · rintro ⟨h0, h1, h2⟩ c hc
        rw [hcp]
        rcases hc with hc | hc | hc
        · rw [hc]; exact h0
        · rw [hc]; exact h1
        · rw [hc]; exact h2
      · intro hall
        refine ⟨?_, ?_, ?_⟩
        · have := (hcp c0.toNat).mp ((hall c0 (Or.inl rfl)))
          simpa using this
        · have := (hcp c1.toNat).mp ((hall c1 (Or.inr (Or.inl rfl))))
          simpa using this
        · have := (hcp c2.toNat).mp ((hall c2 (Or.inr (Or.inr rfl))))
          simpa using this
    · intro r hr
      rw [hrules, hrulesmem]
      exact Or.inl (List.mem_filterMap.mpr ⟨p, hp, hr⟩)
    · have := hinv.2.2.2.2.2.2.2 q hq
      rw [← hqe]
      exact this
  · intro p hp
    obtain ⟨q, hq, hqe⟩ := List.mem_map.mp hp
    have hlen : q.1.data.length = 2 := hlen2y q hq
    obtain ⟨c0, c1, hdata⟩ := List.length_eq_two.mp hlen
    refine ⟨?_, ?_, ?_⟩
    · rw [ruleFor2_isSome_iff]
      have hp1 : p.1 = q.1 := by rw [← hqe]
      rw [hp1, hdata]
      simp only [cpAt, hdata, List.mem_cons, List.not_mem_nil, or_false]
      constructor
      · rintro ⟨h0, h1⟩ c hc
        rw [hcp]
        rcases hc with hc | hc
        · rw [hc]; exact h0
        · rw [hc]; exact h1
      · intro hall
        refine ⟨?_, ?_⟩
        · have := (hcp c0.toNat).mp ((hall c0 (Or.inl rfl)))
          simpa using this
        · have := (hcp c1.toNat).mp ((hall c1 (Or.inr rfl)))
          simpa using this
    · intro r hr
      rw [hrules, hrulesmem]
      exact Or.inr (Or.inl (List.mem_filterMap.mpr ⟨p, hp, hr⟩))
    · have := hinv.2.2.2.2.2.1 q hq
      rw [← hqe]
      exact this
  · intro p hp
    obtain ⟨q, hq, hqe⟩ := List.mem_map.mp hp
    have hlen : q.1.data.length = 2 := hlen2s q hq
    obtain ⟨c0, c1, hdata⟩ := List.length_eq_two.mp hlen
    refine ⟨?_, ?_, ?_⟩
    · rw [ruleFor2_isSome_iff]
      have hp1 : p.1 = q.1 := by rw [← hqe]
      rw [hp1, hdata]
      simp only [cpAt, hdata, List.mem_cons, List.not_mem_nil, or_false]
      constructor
      · rintro ⟨h0, h1⟩ c hc
        rw [hcp]
        rcases hc with hc | hc
        · rw [hc]; exact h0
        · rw [hc]; exact h1
      · intro hall
        refine ⟨?_, ?_⟩
        · have := (hcp c0.toNat).mp ((hall c0 (Or.inl rfl)))
          simpa using this
        · have := (hcp c1.toNat).mp ((hall c1 (Or.inr rfl)))
          simpa using this
    · intro r hr
      rw [hrules, hrulesmem]
      exact Or.inr (Or.inr (List.mem_filterMap.mpr ⟨p, hp, hr⟩))
    · have := hinv.2.2.2.2.2.2.1 q hq
      rw [← hqe]
      exact this
  · intro r hr
    rw [hrules, hrulesmem] at hr
    rcases hr with hr | hr | hr
    · exact Or.inl (List.mem_filterMap.mp hr)
    · exact Or.inr (Or.inl (List.mem_filterMap.mp hr))
    · exact Or.inr (Or.inr (List.mem_filterMap.mp hr))

theorem C4_rule_iff_final_cmap_witness :
    ((ruleFor3 (lookupA (cmapMapW hW))
        ("ッキャ", dstName hW "ッキャ" "_complex")).isSome ↔
      ∀ c ∈ "ッキャ".data, (lookupA outW.cmap c.toNat).isSome) ∧
    dstName hW "ッキャ" "_complex" ∈ outW.glyphOrder := by
  have hout : build_font envW = some outW :=
    getD_of_isSome (build_font envW) defaultFontOut
      (build_font_isSome envW (by decide) (by decide) (by decide) (by decide)
        (by decide))
  have hliga : outW.liga = some (rulesOf hW) := by
    rw [(build_font_some_inv envW outW hout).2.1]
    rfl
  have h := C4_rule_iff_final_cmap envW outW (rulesOf hW) hout hliga
  have hp : ("ッキャ", dstName hW "ッキャ" "_complex") ∈ complexAssocOf hW := by
    decide
  have h2 := h.2.1 _ hp
  exact ⟨h2.1, h2.2.2⟩

end KanaKira




